import Mathlib

/- Shallow embedding of src/msmd_implementation.py, the mSMD (modified static
memory deduplication) pipeline: fuzzy hashing and application clustering,
genetic-algorithm page-similarity search, the multilevel shared page table,
the deduplication engine, and the orchestrator.

Modelling conventions:
- Python dicts are insertion-ordered association lists: updating an existing
  key rewrites the value in place, a new key is appended at the end
  (pyGet / pyInsert / pyErase below).
- Python floats are exact rationals.  Every float the claims touch is a
  ratio of small integers combined by +, -, *, /, max, min and comparisons,
  computed the same way on both sides of each compared expression, so the
  claims' truth values are insensitive to rounding.
- A Python function that can raise is embedded with an Option result
  (none = the exception propagates).
- The md5 hex digest used by compute_fuzzy_hash is a library function, not
  repository code; it is passed in as an opaque parameter.
- The global random stream used by the genetic algorithm is modelled as an
  indexed oracle; functions consume draws by index and return the next
  unused index, mirroring the mutable global stream.
- Dead code that no claim touches (roulette_wheel_selection,
  compute_object_dump_hash, the FuzzyHashResult dataclass, logging, and the
  reporting/visualization scripts) is not embedded. -/

/-! ## Python dict as insertion-ordered association list -/

def pyGet [DecidableEq α] : List (α × β) → α → Option β
  | [], _ => none
  | (k, v) :: t, a => if a = k then some v else pyGet t a

def pyInsert [DecidableEq α] : List (α × β) → α → β → List (α × β)
  | [], a, b => [(a, b)]
  | (k, v) :: t, a, b => if a = k then (a, b) :: t else (k, v) :: pyInsert t a b

def pyErase [DecidableEq α] : List (α × β) → α → List (α × β)
  | [], _ => []
  | (k, v) :: t, a => if k = a then pyErase t a else (k, v) :: pyErase t a

def pyKeys (l : List (α × β)) : List α := l.map Prod.fst

theorem mem_pyKeys_iff (l : List (α × β)) (a : α) :
    a ∈ pyKeys l ↔ ∃ v, (a, v) ∈ l := by
  constructor
  · intro h
    obtain ⟨⟨k, v⟩, hm, he⟩ := List.mem_map.mp h
    exact ⟨v, by rwa [show k = a from he] at hm⟩
  · rintro ⟨v, hv⟩
    exact List.mem_map.mpr ⟨(a, v), hv, rfl⟩

theorem pyGet_pyInsert [DecidableEq α] (l : List (α × β)) (a : α) (b : β) (x : α) :
    pyGet (pyInsert l a b) x = if x = a then some b else pyGet l x := by
  induction l with
  | nil =>
    by_cases h : x = a <;> simp [pyInsert, pyGet, h]
  | cons p t ih =>
    obtain ⟨k, v⟩ := p
    by_cases hak : a = k
    · subst hak
      by_cases hx : x = a <;> simp [pyInsert, pyGet, hx]
    · by_cases hx : x = a
      · subst hx
        simp [pyInsert, hak, pyGet, ih]
      · have hka : ¬ k = a := fun h => hak h.symm
        by_cases hxk : x = k <;> simp [pyInsert, hak, pyGet, hxk, ih, hx, hka]

theorem pyGet_pyErase [DecidableEq α] (l : List (α × β)) (a x : α) :
    pyGet (pyErase l a) x = if x = a then none else pyGet l x := by
  induction l with
  | nil => by_cases h : x = a <;> simp [pyErase, pyGet, h]
  | cons p t ih =>
    obtain ⟨k, v⟩ := p
    rw [pyErase]
    by_cases hk : k = a
    · rw [if_pos hk, ih]
      by_cases hx : x = a
      · simp [hx]
      · rw [if_neg hx, if_neg hx, pyGet,
          if_neg (show ¬ x = k from fun h => hx (h.trans hk))]
    · rw [if_neg hk, pyGet]
      by_cases hx : x = k
      · rw [if_pos hx, if_neg (show ¬ x = a from fun h => hk (hx.symm.trans h)), pyGet,
          if_pos hx]
      · rw [if_neg hx, ih]
        by_cases hxa : x = a
        · simp [hxa]
        · rw [if_neg hxa, if_neg hxa, pyGet, if_neg hx]

theorem pyGet_eq_none_iff [DecidableEq α] (l : List (α × β)) (a : α) :
    pyGet l a = none ↔ a ∉ pyKeys l := by
  induction l with
  | nil => simp [pyGet, pyKeys]
  | cons p t ih =>
    obtain ⟨k, v⟩ := p
    by_cases hk : a = k
    · subst hk; simp [pyGet, pyKeys]
    · simp only [pyGet, if_neg hk, pyKeys, List.map_cons, List.mem_cons]
      simp only [pyKeys] at ih
      rw [ih]
      constructor
      · intro h hc
        rcases hc with hc | hc
        · exact hk hc
        · exact h hc
      · intro h hc
        exact h (Or.inr hc)

theorem pyGet_mem [DecidableEq α] (l : List (α × β)) (a : α) (b : β)
    (h : pyGet l a = some b) : (a, b) ∈ l := by
  induction l with
  | nil => simp [pyGet] at h
  | cons p t ih =>
    obtain ⟨k, v⟩ := p
    by_cases hk : a = k
    · subst hk
      simp [pyGet] at h
      simp [h]
    · simp [pyGet, hk] at h
      exact List.mem_cons_of_mem _ (ih h)

theorem pyGet_of_mem_nodup [DecidableEq α] (l : List (α × β)) (a : α) (b : β)
    (hnd : (pyKeys l).Nodup) (h : (a, b) ∈ l) : pyGet l a = some b := by
  induction l with
  | nil => simp at h
  | cons p t ih =>
    obtain ⟨k, v⟩ := p
    rw [pyKeys, List.map_cons, List.nodup_cons] at hnd
    rcases List.mem_cons.mp h with h1 | h1
    · obtain ⟨rfl, rfl⟩ := Prod.mk.injEq a b k v ▸ h1
      simp [pyGet]
    · have hka : a ≠ k := by
        intro hk; subst hk
        exact hnd.1 ((mem_pyKeys_iff t a).mpr ⟨b, h1⟩)
      simp [pyGet, hka, ih hnd.2 h1]

theorem pyGet_some_mem_keys [DecidableEq α] (l : List (α × β)) (a : α) (b : β)
    (h : pyGet l a = some b) : a ∈ pyKeys l :=
  (mem_pyKeys_iff l a).mpr ⟨b, pyGet_mem l a b h⟩

theorem pyInsert_of_not_mem [DecidableEq α] (l : List (α × β)) (a : α) (b : β)
    (h : a ∉ pyKeys l) : pyInsert l a b = l ++ [(a, b)] := by
  induction l with
  | nil => simp [pyInsert]
  | cons p t ih =>
    obtain ⟨k, v⟩ := p
    rw [pyKeys, List.map_cons, List.mem_cons] at h
    push_neg at h
    have hka : a ≠ k := h.1
    rw [pyInsert, if_neg hka, ih h.2]
    simp

theorem pyKeys_pyInsert_mem [DecidableEq α] (l : List (α × β)) (a : α) (b : β)
    (h : a ∈ pyKeys l) : pyKeys (pyInsert l a b) = pyKeys l := by
  induction l with
  | nil => simp [pyKeys] at h
  | cons p t ih =>
    obtain ⟨k, v⟩ := p
    by_cases hk : a = k
    · subst hk; simp [pyInsert, pyKeys]
    · rw [pyKeys, List.map_cons, List.mem_cons] at h
      rcases h with h | h
      · exact absurd h hk
      · rw [pyInsert, if_neg hk]
        simp only [pyKeys, List.map_cons]
        rw [show List.map Prod.fst (pyInsert t a b) = pyKeys (pyInsert t a b) from rfl,
          ih h]
        rfl

theorem pyKeys_pyInsert_not_mem [DecidableEq α] (l : List (α × β)) (a : α) (b : β)
    (h : a ∉ pyKeys l) : pyKeys (pyInsert l a b) = pyKeys l ++ [a] := by
  rw [pyInsert_of_not_mem l a b h]
  simp [pyKeys]

theorem pyKeys_nodup_pyInsert [DecidableEq α] (l : List (α × β)) (a : α) (b : β)
    (h : (pyKeys l).Nodup) : (pyKeys (pyInsert l a b)).Nodup := by
  by_cases hm : a ∈ pyKeys l
  · rw [pyKeys_pyInsert_mem l a b hm]; exact h
  · rw [pyKeys_pyInsert_not_mem l a b hm]
    simp [List.nodup_append, h, hm]

theorem pyErase_keys_sublist [DecidableEq α] (l : List (α × β)) (a : α) :
    (pyKeys (pyErase l a)).Sublist (pyKeys l) := by
  induction l with
  | nil => simp [pyErase, pyKeys]
  | cons p t ih =>
    obtain ⟨k, v⟩ := p
    by_cases hk : k = a
    · rw [pyErase, if_pos hk]
      exact List.Sublist.trans ih (List.sublist_cons_self _ _)
    · rw [pyErase, if_neg hk]
      exact List.Sublist.cons₂ _ ih

theorem pyKeys_nodup_pyErase [DecidableEq α] (l : List (α × β)) (a : α)
    (h : (pyKeys l).Nodup) : (pyKeys (pyErase l a)).Nodup :=
  (pyErase_keys_sublist l a).nodup h

theorem mem_keys_pyErase [DecidableEq α] (l : List (α × β)) (a x : α)
    (h : x ∈ pyKeys (pyErase l a)) : x ∈ pyKeys l :=
  (pyErase_keys_sublist l a).mem h

theorem pyErase_of_not_mem [DecidableEq α] (l : List (α × β)) (a : α)
    (h : a ∉ pyKeys l) : pyErase l a = l := by
  induction l with
  | nil => rfl
  | cons p t ih =>
    obtain ⟨k, v⟩ := p
    rw [pyKeys, List.map_cons, List.mem_cons] at h
    push_neg at h
    rw [pyErase, if_neg (fun hc : k = a => h.1 hc.symm), ih h.2]

theorem length_pyErase_of_mem [DecidableEq α] (l : List (α × β)) (a : α)
    (hnd : (pyKeys l).Nodup) (h : a ∈ pyKeys l) :
    (pyErase l a).length + 1 = l.length := by
  induction l with
  | nil => simp [pyKeys] at h
  | cons p t ih =>
    obtain ⟨k, v⟩ := p
    rw [pyKeys, List.map_cons, List.nodup_cons] at hnd
    rw [pyKeys, List.map_cons, List.mem_cons] at h
    by_cases hk : k = a
    · subst hk
      rw [pyErase, if_pos rfl, pyErase_of_not_mem t k hnd.1]
      simp
    · rcases h with h | h
      · exact absurd h.symm hk
      · rw [pyErase, if_neg hk]
        simp only [List.length_cons]
        rw [ih hnd.2 h]

theorem pyGet_foldl_pyInsert_const [DecidableEq α] {γ : Type _} (f : γ → α) (c : β) :
    ∀ (xs : List γ) (d : List (α × β)) (x : α),
    pyGet (xs.foldl (fun d g => pyInsert d (f g) c) d) x =
      if x ∈ xs.map f then some c else pyGet d x := by
  intro xs
  induction xs with
  | nil => intro d x; simp
  | cons g t ih =>
    intro d x
    simp only [List.foldl_cons, List.map_cons, List.mem_cons]
    rw [ih]
    by_cases hx : x ∈ t.map f
    · simp [hx]
    · by_cases hg : x = f g
      · simp [hx, hg, pyGet_pyInsert]
      · simp [hx, hg, pyGet_pyInsert]

/-! ## Data structures (the dataclasses of the source) -/

structure Page where
  page_id : Int
  vm_id : Int
  app_id : Int
  content_hash : String
  object_dump : String
  size : Int := 4096
  shared : Bool := false
  cluster_id : Int := -1
deriving DecidableEq, Repr

instance : Inhabited Page := ⟨⟨0, 0, 0, "", "", 4096, false, -1⟩⟩

structure Application where
  app_id : Int
  vm_id : Int
  name : String
  fuzzy_hash : String
  pages : List Int := []
  cluster_id : Int := -1
deriving DecidableEq, Repr

structure SharedPageTableEntry where
  entry_id : Nat
  primary_page_id : Int
  similar_pages : List Int
  content_signature : String
  cluster_id : Int
  created_timestamp : Nat
deriving DecidableEq, Repr

/-! ## Module 1: FuzzyHashingModule -/

/-- Class constant SIMILARITY_THRESHOLD = 30. -/
def SIMILARITY_THRESHOLD : ℚ := 30

/-- FuzzyHashingModule.compute_fuzzy_hash.  The rolling hash is computed and
discarded exactly as in the source; the result is the first 16 characters of
the md5 hex digest, with md5 (a library routine, not repository code) passed
in as a parameter. -/
def compute_fuzzy_hash (md5hexdigest : List Nat → String) (data : List Nat) : String :=
  let _hash_val := data.foldl (fun h b => ((h <<< 5) ^^^ b) &&& 0xFFFFFFFF) 0
  (md5hexdigest data).take 16

/-- FuzzyHashingModule.calculate_similarity.  Equal digests score 100;
otherwise the character-wise mismatch count over the zipped digests is
normalized by the length of the FIRST digest.  When that length is zero and
the digests differ, the Python division raises ZeroDivisionError, embedded
here as none. -/
def calculate_similarity (hash1 hash2 : String) : Option ℚ :=
  if hash1 = hash2 then some 100
  else
    let distance : Nat := (hash1.toList.zip hash2.toList).countP (fun p => decide (p.1 ≠ p.2))
    let max_distance : Nat := hash1.length
    if max_distance = 0 then none
    else some (((max_distance : ℚ) - (distance : ℚ)) / (max_distance : ℚ) * 100)

theorem countP_zip_ne_symm : ∀ (l1 l2 : List Char),
    (l1.zip l2).countP (fun p => decide (p.1 ≠ p.2)) =
      (l2.zip l1).countP (fun p => decide (p.1 ≠ p.2)) := by
  intro l1
  induction l1 with
  | nil => intro l2; cases l2 <;> rfl
  | cons a t1 ih =>
    intro l2
    cases l2 with
    | nil => rfl
    | cons b t2 =>
      simp only [List.zip_cons_cons, List.countP_cons, ih t2]
      congr 1
      by_cases h : a = b <;> simp [h, Ne.symm]

theorem string_eq_of_length_zero {s t : String} (hs : s.length = 0) (ht : t.length = 0) :
    s = t := by
  cases s with
  | mk ds =>
    cases t with
    | mk dt =>
      simp [String.length] at hs ht
      simp [hs, ht]

theorem calculate_similarity_of_ne (h1 h2 : String) (hne : h1 ≠ h2)
    (h0 : h1.length ≠ 0) :
    calculate_similarity h1 h2 = some (((h1.length : ℚ) -
      (((h1.toList.zip h2.toList).countP (fun p => decide (p.1 ≠ p.2)) : Nat) : ℚ)) /
        (h1.length : ℚ) * 100) := by
  rw [calculate_similarity, if_neg hne]
  exact if_neg h0

theorem calculate_similarity_of_zero (h1 h2 : String) (hne : h1 ≠ h2)
    (h0 : h1.length = 0) : calculate_similarity h1 h2 = none := by
  rw [calculate_similarity, if_neg hne]
  exact if_pos h0

/-- C6: calculate_similarity is reflexive on any fingerprint output (score
100) and symmetric on equal-length digests. -/
theorem similarity_reflexive_symmetric :
    (∀ (md5hexdigest : List Nat → String) (x : List Nat),
      calculate_similarity (compute_fuzzy_hash md5hexdigest x)
        (compute_fuzzy_hash md5hexdigest x) = some 100) ∧
    (∀ d1 d2 : String, d1.length = d2.length →
      calculate_similarity d1 d2 = calculate_similarity d2 d1) := by
  constructor
  · intro f x
    generalize compute_fuzzy_hash f x = h
    rw [calculate_similarity, if_pos rfl]
  · intro d1 d2 hlen
    by_cases heq : d1 = d2
    · subst heq; rfl
    · have heq' : d2 ≠ d1 := Ne.symm heq
      by_cases h0 : d1.length = 0
      · exact absurd (string_eq_of_length_zero h0 (hlen ▸ h0)) heq
      · have h0' : d2.length ≠ 0 := hlen ▸ h0
        rw [calculate_similarity, calculate_similarity, if_neg heq, if_neg heq']
        simp only [if_neg h0, if_neg h0']
        rw [countP_zip_ne_symm d1.toList d2.toList, hlen]

/-- C3 counterexample: two digests of differing lengths for which
calculate_similarity returns a numeric score (100) instead of failing. -/
theorem similarity_length_cex :
    ("a").length ≠ ("ab").length ∧ calculate_similarity "a" "ab" = some 100 := by
  constructor
  · decide
  · rw [calculate_similarity_of_ne "a" "ab" (by decide) (by decide)]
    have hc : ((("a" : String).toList.zip ("ab" : String).toList).countP
        (fun p => decide (p.1 ≠ p.2)) : Nat) = 0 := by decide
    have hl : ("a" : String).length = 1 := by decide
    rw [hc, hl]
    norm_num

/-- C3 amended: calculate_similarity performs no length validation.  For
digests of differing lengths it compares character pairs only over the
common prefix and normalizes by the first digest's length: when the first
digest is nonempty it returns a numeric score in [0, 100]; only when the
first digest is empty (and the second is not) does the call fail, with a
ZeroDivisionError rather than a ConfigurationError. -/
theorem similarity_mismatched_lengths (h1 h2 : String) (hne : h1.length ≠ h2.length) :
    (h1.length = 0 → calculate_similarity h1 h2 = none) ∧
    (h1.length ≠ 0 → ∃ s, calculate_similarity h1 h2 = some s ∧ 0 ≤ s ∧ s ≤ 100) := by
  have heq : h1 ≠ h2 := fun h => hne (h ▸ rfl)
  constructor
  · intro h0
    exact calculate_similarity_of_zero h1 h2 heq h0
  · intro h0
    set d : Nat := (h1.toList.zip h2.toList).countP (fun p => decide (p.1 ≠ p.2)) with hd
    have hdle : d ≤ h1.length := by
      calc d ≤ (h1.toList.zip h2.toList).length := List.countP_le_length _
      _ ≤ h1.toList.length := by rw [List.length_zip]; exact Nat.min_le_left _ _
      _ = h1.length := rfl
    refine ⟨((h1.length : ℚ) - (d : ℚ)) / (h1.length : ℚ) * 100, ?_, ?_, ?_⟩
    · rw [calculate_similarity_of_ne h1 h2 heq h0]
    · apply mul_nonneg _ (by norm_num)
      apply div_nonneg _ (by positivity)
      have : (d : ℚ) ≤ (h1.length : ℚ) := by exact_mod_cast hdle
      linarith
    · have hpos : (0 : ℚ) < (h1.length : ℚ) := by
        have : 0 < h1.length := Nat.pos_of_ne_zero h0
        exact_mod_cast this
      have hle1 : ((h1.length : ℚ) - (d : ℚ)) / (h1.length : ℚ) ≤ 1 := by
        rw [div_le_one hpos]
        have : (0 : ℚ) ≤ (d : ℚ) := by positivity
        linarith
      calc ((h1.length : ℚ) - (d : ℚ)) / (h1.length : ℚ) * 100 ≤ 1 * 100 := by
            apply mul_le_mul_of_nonneg_right hle1 (by norm_num)
      _ = 100 := by norm_num

/-- C3 witness for the amended theorem, at the digests "a" and "ab". -/
theorem similarity_mismatched_lengths_witness :
    ∃ s, calculate_similarity "a" "ab" = some s ∧ 0 ≤ s ∧ s ≤ 100 :=
  (similarity_mismatched_lengths "a" "ab" (by decide)).2 (by decide)

/-- C6 witness: reflexivity at a concrete fingerprint and symmetry at the
equal-length digests "ab" and "cd". -/
theorem similarity_reflexive_symmetric_witness :
    calculate_similarity (compute_fuzzy_hash (fun _ => "0123456789abcdef") [1, 2, 3])
      (compute_fuzzy_hash (fun _ => "0123456789abcdef") [1, 2, 3]) = some 100 ∧
    calculate_similarity "ab" "cd" = calculate_similarity "cd" "ab" :=
  ⟨similarity_reflexive_symmetric.1 (fun _ => "0123456789abcdef") [1, 2, 3],
   similarity_reflexive_symmetric.2 "ab" "cd" (by decide)⟩

/-! ## Module 3: MultilevelSharedPageTable -/

structure MultilevelSharedPageTable where
  frame_size : Int := 4096
  table : List (Nat × SharedPageTableEntry) := []
  page_to_entry : List (Int × Nat) := []
  entry_counter : Nat := 0
deriving DecidableEq, Repr

/-- MultilevelSharedPageTable.__init__. -/
def MultilevelSharedPageTable.init (frame_size : Int := 4096) : MultilevelSharedPageTable :=
  { frame_size := frame_size, table := [], page_to_entry := [], entry_counter := 0 }

/-- MultilevelSharedPageTable.create_entry: allocate the next entry id,
record the entry, and point the primary page and every similar page at it. -/
def create_entry (self : MultilevelSharedPageTable) (primary_page : Page)
    (similar_pages : List Page) (cluster_id : Int) :
    MultilevelSharedPageTable × SharedPageTableEntry :=
  let entry : SharedPageTableEntry :=
    { entry_id := self.entry_counter
      primary_page_id := primary_page.page_id
      similar_pages := similar_pages.map (fun p => p.page_id)
      content_signature := primary_page.content_hash
      cluster_id := cluster_id
      created_timestamp := 0 }
  let table := pyInsert self.table self.entry_counter entry
  let p2e := pyInsert self.page_to_entry primary_page.page_id self.entry_counter
  let p2e := similar_pages.foldl (fun d p => pyInsert d p.page_id self.entry_counter) p2e
  ({ self with
      table := table
      page_to_entry := p2e
      entry_counter := self.entry_counter + 1 }, entry)

/-- The `page_groups[k].add(x)` operation on the defaultdict(set) of
build_table: sets are modelled as insertion-ordered duplicate-free lists. -/
def addToGroup (groups : List (Int × List Int)) (k x : Int) : List (Int × List Int) :=
  let m := (pyGet groups k).getD []
  pyInsert groups k (if x ∈ m then m else m ++ [x])

/-- The grouping loop of build_table: scan the similar pairs in order and
consume a pair only when neither page id was already processed. -/
def groupStep (acc : List (Int × List Int) × List Int) (t : Int × Int × ℚ) :
    List (Int × List Int) × List Int :=
  if t.1 ∉ acc.2 ∧ t.2.1 ∉ acc.2 then
    (addToGroup (addToGroup acc.1 t.1 t.1) t.1 t.2.1, t.1 :: t.2.1 :: acc.2)
  else acc

/-- The `{p.page_id: p for p in pages}` dict of build_table. -/
def pageIdToPage (pages : List Page) : List (Int × Page) :=
  pages.foldl (fun d p => pyInsert d p.page_id p) []

/-- The similar-pages comprehension of build_table for one group: the pages
of the related ids that are present in the page dict and differ from the
primary id. -/
def resolveSimilar (page_id_to_page : List (Int × Page)) (g : Int × List Int) :
    List Page :=
  g.2.filterMap (fun pid => if pid ≠ g.1 then pyGet page_id_to_page pid else none)

/-- The entry-creation step of build_table over one (primary_id, related_ids)
group: skip groups whose primary is unknown, resolve the related ids that
are known and differ from the primary, and create an entry when any remain.
The accumulator carries (table state, created_entries, cluster_id). -/
def entryStep (page_id_to_page : List (Int × Page))
    (acc : MultilevelSharedPageTable × Nat × Int) (g : Int × List Int) :
    MultilevelSharedPageTable × Nat × Int :=
  match pyGet page_id_to_page g.1 with
  | none => acc
  | some primary_page =>
    if (resolveSimilar page_id_to_page g).isEmpty then acc
    else ((create_entry acc.1 primary_page (resolveSimilar page_id_to_page g) acc.2.2).1,
          acc.2.1 + 1, acc.2.2 + 1)

/-- MultilevelSharedPageTable.build_table.  Returns the updated table state
and the number of entries created. -/
def build_table (self : MultilevelSharedPageTable) (pages : List Page)
    (similar_page_pairs : List (Int × Int × ℚ)) : MultilevelSharedPageTable × Nat :=
  let page_id_to_page := pageIdToPage pages
  let page_groups := (similar_page_pairs.foldl groupStep ([], [])).1
  let r := page_groups.foldl (entryStep page_id_to_page) (self, 0, 0)
  (r.1, r.2.1)

/-- MultilevelSharedPageTable.lookup. -/
def lookup (self : MultilevelSharedPageTable) (page_id : Int) :
    Option SharedPageTableEntry :=
  match pyGet self.page_to_entry page_id with
  | some entry_id => pyGet self.table entry_id
  | none => none

/-- MultilevelSharedPageTable.get_shareable_pages. -/
def get_shareable_pages (self : MultilevelSharedPageTable) (page_id : Int) : List Int :=
  match lookup self page_id with
  | some entry => entry.similar_pages
  | none => []

/-! ## Module 4: MemoryDeduplicationEngine -/

structure MemoryDeduplicationEngine where
  mspt : MultilevelSharedPageTable
  dedup_count : Int := 0
  total_memory_saved : Int := 0
deriving DecidableEq, Repr

/-- MemoryDeduplicationEngine.__init__: bind the engine to an index with
both cumulative counters at zero. -/
def MemoryDeduplicationEngine.init (mspt : MultilevelSharedPageTable) :
    MemoryDeduplicationEngine :=
  { mspt := mspt, dedup_count := 0, total_memory_saved := 0 }

/-- The canonical pair key tuple(sorted([a, b])). -/
def sortPair (a b : Int) : Int × Int := (min a b, max a b)

/-- The body of the inner loop of merge_pages (one shareable partner id):
count the canonical pair unless it was already counted in this call.  The
accumulator is (pages_merged, memory_saved, merged_pairs). -/
def mergeInnerStep (vp : Int × Page) (acc2 : Int × Int × List (Int × Int))
    (other_page_id : Int) : Int × Int × List (Int × Int) :=
  let pair_key := sortPair vp.2.page_id other_page_id
  if pair_key ∈ acc2.2.2 then acc2
  else (acc2.1 + 1, acc2.2.1 + vp.2.size, acc2.2.2 ++ [pair_key])

/-- The body of the outer loop of merge_pages (one flattened (vm_id, page)):
look up the shareable partners and run the inner loop over them. -/
def mergeOuterStep (mspt : MultilevelSharedPageTable)
    (acc : Int × Int × List (Int × Int)) (vp : Int × Page) :
    Int × Int × List (Int × Int) :=
  let shareable_pages := get_shareable_pages mspt vp.2.page_id
  if shareable_pages.isEmpty then acc
  else shareable_pages.foldl (mergeInnerStep vp) acc

/-- The pure counting core of merge_pages: flatten the VM pages, and for
each page count every shareable partner whose canonical pair key is new in
this call.  Returns (pages_merged, memory_saved, merged_pairs). -/
def mergeCount (mspt : MultilevelSharedPageTable) (vm_pages : List (Int × List Page)) :
    Int × Int × List (Int × Int) :=
  let all_pages := vm_pages.foldl
    (fun acc vp => acc ++ vp.2.map (fun p => (vp.1, p))) ([] : List (Int × Page))
  all_pages.foldl (mergeOuterStep mspt) (0, 0, [])

/-- MemoryDeduplicationEngine.merge_pages: run the counting core and add the
per-call totals into the engine's cumulative counters.  Returns the updated
engine and the per-call (pages_merged, memory_saved). -/
def merge_pages (self : MemoryDeduplicationEngine) (vm_pages : List (Int × List Page)) :
    MemoryDeduplicationEngine × Int × Int :=
  let r := mergeCount self.mspt vm_pages
  ({ self with
      dedup_count := self.dedup_count + r.1
      total_memory_saved := self.total_memory_saved + r.2.1 }, r.1, r.2.1)

/-- The merged-pairs bookkeeping invariant: the per-call merge counter always
equals the number of recorded canonical pairs, and the recorded pairs are
distinct. -/
def MergeInv (acc : Int × Int × List (Int × Int)) : Prop :=
  acc.1 = (acc.2.2.length : Int) ∧ acc.2.2.Nodup

theorem mergeInnerStep_inv (vp : Int × Page) :
    ∀ (sh : List Int) (acc : Int × Int × List (Int × Int)),
    MergeInv acc → MergeInv (sh.foldl (mergeInnerStep vp) acc) := by
  intro sh
  induction sh with
  | nil => intro acc h; exact h
  | cons o t ih =>
    intro acc h
    rw [List.foldl_cons]
    apply ih
    rw [mergeInnerStep]
    by_cases hm : sortPair vp.2.page_id o ∈ acc.2.2
    · simp only [if_pos hm]; exact h
    · simp only [if_neg hm]
      constructor
      · show acc.1 + 1 = ((acc.2.2 ++ [sortPair vp.2.page_id o]).length : Int)
        rw [List.length_append, List.length_cons, List.length_nil]
        push_cast
        rw [h.1]
      · show (acc.2.2 ++ [sortPair vp.2.page_id o]).Nodup
        exact List.nodup_append.mpr ⟨h.2, List.nodup_singleton _,
          by simp [List.disjoint_singleton, hm]⟩

theorem mergeOuterStep_inv (mspt : MultilevelSharedPageTable) :
    ∀ (ps : List (Int × Page)) (acc : Int × Int × List (Int × Int)),
    MergeInv acc → MergeInv (ps.foldl (mergeOuterStep mspt) acc) := by
  intro ps
  induction ps with
  | nil => intro acc h; exact h
  | cons vp t ih =>
    intro acc h
    rw [List.foldl_cons]
    apply ih
    rw [mergeOuterStep]
    by_cases he : (get_shareable_pages mspt vp.2.page_id).isEmpty
    · simp only [if_pos he]; exact h
    · simp only [if_neg he]
      exact mergeInnerStep_inv vp _ acc h

/-- C2: from a freshly constructed engine, merge_pages is deterministic per
call (the second identical call returns the same per-call result), the
cumulative counters after two identical calls are exactly twice the
per-call result, and within a single call each canonical unordered pair is
counted at most once (the per-call count equals the number of distinct
canonical pairs recorded). -/
theorem merge_pages_double_accumulation (mspt : MultilevelSharedPageTable)
    (vm_pages : List (Int × List Page)) :
    ((merge_pages ((merge_pages (MemoryDeduplicationEngine.init mspt) vm_pages).1)
        vm_pages).2 =
      (merge_pages (MemoryDeduplicationEngine.init mspt) vm_pages).2) ∧
    ((merge_pages ((merge_pages (MemoryDeduplicationEngine.init mspt) vm_pages).1)
        vm_pages).1.dedup_count =
      2 * (merge_pages (MemoryDeduplicationEngine.init mspt) vm_pages).2.1) ∧
    ((merge_pages ((merge_pages (MemoryDeduplicationEngine.init mspt) vm_pages).1)
        vm_pages).1.total_memory_saved =
      2 * (merge_pages (MemoryDeduplicationEngine.init mspt) vm_pages).2.2) ∧
    (mergeCount mspt vm_pages).2.2.Nodup ∧
    (mergeCount mspt vm_pages).1 = ((mergeCount mspt vm_pages).2.2.length : Int) := by
  have hinv : MergeInv (mergeCount mspt vm_pages) := by
    apply mergeOuterStep_inv
    exact ⟨by simp, by simp⟩
  refine ⟨rfl, ?_, ?_, hinv.2, hinv.1⟩
  · show (0 : Int) + (mergeCount mspt vm_pages).1 + (mergeCount mspt vm_pages).1 =
      2 * (mergeCount mspt vm_pages).1
    ring
  · show (0 : Int) + (mergeCount mspt vm_pages).2.1 + (mergeCount mspt vm_pages).2.1 =
      2 * (mergeCount mspt vm_pages).2.1
    ring

/-! ## build_table: characterizing the grouping pass -/

theorem pyGet_append_of_not_mem [DecidableEq α] (l1 l2 : List (α × β)) (a : α)
    (h : a ∉ pyKeys l1) : pyGet (l1 ++ l2) a = pyGet l2 a := by
  induction l1 with
  | nil => simp
  | cons p t ih =>
    obtain ⟨k, v⟩ := p
    rw [pyKeys, List.map_cons, List.mem_cons] at h
    push_neg at h
    rw [List.cons_append, pyGet, if_neg h.1]
    exact ih h.2

theorem pyInsert_append_last [DecidableEq α] (l : List (α × β)) (a : α) (m m' : β)
    (h : a ∉ pyKeys l) : pyInsert (l ++ [(a, m)]) a m' = l ++ [(a, m')] := by
  induction l with
  | nil => simp [pyInsert]
  | cons p t ih =>
    obtain ⟨k, v⟩ := p
    rw [pyKeys, List.map_cons, List.mem_cons] at h
    push_neg at h
    rw [List.cons_append, pyInsert, if_neg h.1, ih h.2]
    rfl

theorem pyKeys_nodup_foldl_pyInsert [DecidableEq α] {γ : Type _} (f : γ → α) (c : β) :
    ∀ (xs : List γ) (d : List (α × β)), (pyKeys d).Nodup →
    (pyKeys (xs.foldl (fun d g => pyInsert d (f g) c) d)).Nodup := by
  intro xs
  induction xs with
  | nil => intro d h; exact h
  | cons g t ih =>
    intro d h
    rw [List.foldl_cons]
    exact ih _ (pyKeys_nodup_pyInsert _ _ _ h)

/-- The (first, second) page ids of a consumed pair become the group
(first, [first] or [first, second]) of build_table's defaultdict. -/
def toGroup (p : Int × Int) : Int × List Int :=
  (p.1, if p.2 = p.1 then [p.1] else [p.1, p.2])

/-- Recursive rendering of the claim-on-first-sight filter of build_table:
which (page_id1, page_id2) pairs get consumed, and the final processed set. -/
def consumeFoldAux : List (Int × Int × ℚ) → List Int → List (Int × Int) × List Int
  | [], processed => ([], processed)
  | t :: rest, processed =>
    if t.1 ∉ processed ∧ t.2.1 ∉ processed then
      ((t.1, t.2.1) :: (consumeFoldAux rest (t.1 :: t.2.1 :: processed)).1,
        (consumeFoldAux rest (t.1 :: t.2.1 :: processed)).2)
    else consumeFoldAux rest processed

/-- The pairs of a build_table call that pass the processed-set filter. -/
def consumed_pairs (pairs : List (Int × Int × ℚ)) : List (Int × Int) :=
  (consumeFoldAux pairs []).1

theorem pyKeys_map_toGroup (C : List (Int × Int)) :
    pyKeys (C.map toGroup) = C.map (fun p => p.1) := by
  rw [pyKeys, List.map_map]
  rfl

theorem addToGroup_fresh (G : List (Int × List Int)) (a b : Int)
    (h : a ∉ pyKeys G) : addToGroup (addToGroup G a a) a b = G ++ [toGroup (a, b)] := by
  have h1 : addToGroup G a a = G ++ [(a, [a])] := by
    rw [addToGroup]
    rw [(pyGet_eq_none_iff G a).mpr h]
    simp only [Option.getD_none, List.not_mem_nil, if_neg (List.not_mem_nil a),
      List.nil_append]
    exact pyInsert_of_not_mem G a [a] h
  rw [h1, addToGroup]
  rw [pyGet_append_of_not_mem G [(a, [a])] a h]
  rw [pyGet, if_pos rfl]
  simp only [Option.getD_some]
  rw [pyInsert_append_last G a _ _ h]
  have hm : (if b ∈ [a] then [a] else [a] ++ [b]) = (toGroup (a, b)).2 := by
    by_cases hb : b = a
    · simp [hb, toGroup]
    · simp [hb, toGroup, List.mem_singleton]
  rw [hm]
  rfl

theorem groupFold_eq : ∀ (pairs : List (Int × Int × ℚ)) (C : List (Int × Int))
    (P : List Int), (∀ p ∈ C, p.1 ∈ P ∧ p.2 ∈ P) →
    pairs.foldl groupStep (C.map toGroup, P) =
      ((C ++ (consumeFoldAux pairs P).1).map toGroup, (consumeFoldAux pairs P).2) := by
  intro pairs
  induction pairs with
  | nil =>
    intro C P _
    simp [consumeFoldAux]
  | cons t rest ih =>
    intro C P hCP
    rw [List.foldl_cons, consumeFoldAux]
    by_cases hc : t.1 ∉ P ∧ t.2.1 ∉ P
    · have hkey : t.1 ∉ pyKeys (C.map toGroup) := by
        rw [pyKeys_map_toGroup]
        intro hmem
        obtain ⟨p, hp, hp1⟩ := List.mem_map.mp hmem
        exact hc.1 (hp1 ▸ (hCP p hp).1)
      have hstep : groupStep (C.map toGroup, P) t =
          ((C ++ [(t.1, t.2.1)]).map toGroup, t.1 :: t.2.1 :: P) := by
        rw [groupStep, if_pos hc]
        rw [show (C.map toGroup, P).1 = C.map toGroup from rfl]
        rw [addToGroup_fresh (C.map toGroup) t.1 t.2.1 hkey]
        rw [List.map_append]
        rfl
      rw [hstep, ih (C ++ [(t.1, t.2.1)]) (t.1 :: t.2.1 :: P) ?_]
      · rw [if_pos hc]
        simp [List.append_assoc]
      · intro p hp
        rcases List.mem_append.mp hp with hp | hp
        · have := hCP p hp
          exact ⟨List.mem_cons_of_mem _ (List.mem_cons_of_mem _ this.1),
            List.mem_cons_of_mem _ (List.mem_cons_of_mem _ this.2)⟩
        · rw [List.mem_singleton] at hp
          subst hp
          exact ⟨List.mem_cons_self _ _, List.mem_cons_of_mem _ (List.mem_cons_self _ _)⟩
    · rw [show groupStep (C.map toGroup, P) t = (C.map toGroup, P) from by
        rw [groupStep, if_neg hc]]
      rw [if_neg hc]
      exact ih C P hCP

/-- The grouping pass of build_table produces exactly one group per consumed
pair. -/
theorem page_groups_eq (pairs : List (Int × Int × ℚ)) :
    (pairs.foldl groupStep ([], [])).1 = (consumed_pairs pairs).map toGroup := by
  have := groupFold_eq pairs [] [] (by intro p hp; simp at hp)
  rw [show (([], []) : List (Int × List Int) × List Int) =
    ((([] : List (Int × Int)).map toGroup), ([] : List Int)) from rfl, this]
  simp [consumed_pairs]

theorem consumeFold_fresh : ∀ (pairs : List (Int × Int × ℚ)) (P : List Int),
    (∀ p ∈ (consumeFoldAux pairs P).1, p.1 ∉ P ∧ p.2 ∉ P) ∧
    List.Pairwise (fun p q => q.1 ≠ p.1 ∧ q.1 ≠ p.2 ∧ q.2 ≠ p.1 ∧ q.2 ≠ p.2)
      (consumeFoldAux pairs P).1 := by
  intro pairs
  induction pairs with
  | nil => intro P; simp [consumeFoldAux]
  | cons t rest ih =>
    intro P
    rw [consumeFoldAux]
    by_cases hc : t.1 ∉ P ∧ t.2.1 ∉ P
    · rw [if_pos hc]
      have ihr := ih (t.1 :: t.2.1 :: P)
      constructor
      · intro p hp
        rcases List.mem_cons.mp hp with hp | hp
        · subst hp; exact hc
        · have := ihr.1 p hp
          constructor
          · intro hmem
            exact this.1 (List.mem_cons_of_mem _ (List.mem_cons_of_mem _ hmem))
          · intro hmem
            exact this.2 (List.mem_cons_of_mem _ (List.mem_cons_of_mem _ hmem))
      · rw [List.pairwise_cons]
        refine ⟨?_, ihr.2⟩
        intro q hq
        have := ihr.1 q hq
        refine ⟨fun h => this.1 (h ▸ List.mem_cons_self _ _), ?_,
          fun h => this.2 (h ▸ List.mem_cons_self _ _), ?_⟩
        · exact fun h => this.1 (h ▸ List.mem_cons_of_mem _ (List.mem_cons_self _ _))
        · exact fun h => this.2 (h ▸ List.mem_cons_of_mem _ (List.mem_cons_self _ _))
    · rw [if_neg hc]
      exact ih P

theorem toGroup_mem_sub (p : Int × Int) (x : Int) (h : x ∈ (toGroup p).2) :
    x = p.1 ∨ x = p.2 := by
  rw [toGroup] at h
  by_cases hp : p.2 = p.1
  · rw [if_pos hp] at h
    rw [List.mem_singleton] at h
    exact Or.inl h
  · rw [if_neg hp] at h
    rcases List.mem_cons.mp h with h | h
    · exact Or.inl h
    · rw [List.mem_singleton] at h
      exact Or.inr h

theorem toGroup_key_mem (p : Int × Int) : (toGroup p).1 ∈ (toGroup p).2 := by
  rw [toGroup]
  by_cases hp : p.2 = p.1 <;> simp [hp]

/-- The groups of one build_table call have pairwise disjoint member sets. -/
theorem groups_pairwise_disjoint (pairs : List (Int × Int × ℚ)) :
    List.Pairwise (fun g h => ∀ x ∈ g.2, x ∉ h.2)
      ((consumed_pairs pairs).map toGroup) := by
  have hfresh := (consumeFold_fresh pairs []).2
  refine List.Pairwise.map toGroup ?_ hfresh
  intro p q hpq x hxp hxq
  rcases toGroup_mem_sub p x hxp with h1 | h1 <;>
    rcases toGroup_mem_sub q x hxq with h2 | h2
  · exact hpq.1 (h2 ▸ h1 ▸ rfl)
  · exact hpq.2.2.1 (h2 ▸ h1 ▸ rfl)
  · exact hpq.2.1 (h2 ▸ h1 ▸ rfl)
  · exact hpq.2.2.2 (h2 ▸ h1 ▸ rfl)

/-! ## build_table: the page_id -> Page dict -/

theorem pageIdToPage_coherent_aux : ∀ (pages : List Page) (d : List (Int × Page)),
    (∀ k v, pyGet d k = some v → v.page_id = k) →
    ∀ k v, pyGet (pages.foldl (fun d p => pyInsert d p.page_id p) d) k = some v →
      v.page_id = k := by
  intro pages
  induction pages with
  | nil => intro d h; exact h
  | cons p t ih =>
    intro d h
    rw [List.foldl_cons]
    apply ih
    intro k v hget
    rw [pyGet_pyInsert] at hget
    by_cases hk : k = p.page_id
    · rw [if_pos hk] at hget
      rw [← Option.some_inj.mp hget, hk]
    · rw [if_neg hk] at hget
      exact h k v hget

theorem pageIdToPage_coherent (pages : List Page) (k : Int) (v : Page)
    (h : pyGet (pageIdToPage pages) k = some v) : v.page_id = k :=
  pageIdToPage_coherent_aux pages [] (by intro k v h; simp [pyGet] at h) k v h

theorem pageIdToPage_mem_aux : ∀ (pages : List Page) (d : List (Int × Page)) (k : Int),
    pyGet (pages.foldl (fun d p => pyInsert d p.page_id p) d) k ≠ none ↔
      (k ∈ pages.map Page.page_id ∨ pyGet d k ≠ none) := by
  intro pages
  induction pages with
  | nil => intro d k; simp
  | cons p t ih =>
    intro d k
    rw [List.foldl_cons, ih, List.map_cons, List.mem_cons]
    constructor
    · intro h
      rcases h with h | h
      · exact Or.inl (Or.inr h)
      · rw [pyGet_pyInsert] at h
        by_cases hk : k = p.page_id
        · exact Or.inl (Or.inl hk)
        · rw [if_neg hk] at h
          exact Or.inr h
    · intro h
      rcases h with (h | h) | h
      · right
        rw [pyGet_pyInsert, if_pos h]
        simp
      · exact Or.inl h
      · right
        rw [pyGet_pyInsert]
        by_cases hk : k = p.page_id
        · rw [if_pos hk]; simp
        · rw [if_neg hk]; exact h

theorem pageIdToPage_mem (pages : List Page) (k : Int) :
    pyGet (pageIdToPage pages) k ≠ none ↔ k ∈ pages.map Page.page_id := by
  rw [pageIdToPage, pageIdToPage_mem_aux]
  simp [pyGet]

/-! ## build_table: the table invariant (claims C1, C4, C10) -/

/-- The page ids an entry covers: the primary page and its similar pages. -/
def pagesOf (e : SharedPageTableEntry) : List Int := e.primary_page_id :: e.similar_pages

/-- Invariant of the shared page table: page-map keys are distinct, entry
ids are below the counter, every page of an entry points back at that
entry, no entry lists its primary page among its similar pages, and every
page-map binding points at an existing entry covering that page. -/
def TableInv (st : MultilevelSharedPageTable) : Prop :=
  (pyKeys st.page_to_entry).Nodup ∧
  (∀ eid e, pyGet st.table eid = some e → eid < st.entry_counter) ∧
  (∀ eid e, pyGet st.table eid = some e →
    ∀ p ∈ pagesOf e, pyGet st.page_to_entry p = some eid) ∧
  (∀ eid e, pyGet st.table eid = some e → e.primary_page_id ∉ e.similar_pages) ∧
  (∀ p eid, pyGet st.page_to_entry p = some eid →
    ∃ e, pyGet st.table eid = some e ∧ p ∈ pagesOf e)

theorem tableInv_init (fs : Int) : TableInv (MultilevelSharedPageTable.init fs) := by
  refine ⟨by simp [MultilevelSharedPageTable.init, pyKeys], ?_, ?_, ?_, ?_⟩ <;>
    intro a b h <;> simp [MultilevelSharedPageTable.init, pyGet] at h

theorem create_entry_p2e (st : MultilevelSharedPageTable) (primary : Page)
    (similar : List Page) (cid : Int) (x : Int) :
    pyGet (create_entry st primary similar cid).1.page_to_entry x =
      if x ∈ similar.map Page.page_id then some st.entry_counter
      else if x = primary.page_id then some st.entry_counter
      else pyGet st.page_to_entry x := by
  show pyGet (similar.foldl (fun d p => pyInsert d p.page_id st.entry_counter)
    (pyInsert st.page_to_entry primary.page_id st.entry_counter)) x = _
  rw [pyGet_foldl_pyInsert_const Page.page_id st.entry_counter similar _ x]
  by_cases h1 : x ∈ similar.map Page.page_id
  · rw [if_pos h1, if_pos h1]
  · rw [if_neg h1, if_neg h1, pyGet_pyInsert]

theorem create_entry_table (st : MultilevelSharedPageTable) (primary : Page)
    (similar : List Page) (cid : Int) (eid : Nat) :
    pyGet (create_entry st primary similar cid).1.table eid =
      if eid = st.entry_counter then some (create_entry st primary similar cid).2
      else pyGet st.table eid := by
  show pyGet (pyInsert st.table st.entry_counter _) eid = _
  rw [pyGet_pyInsert]
  rfl

theorem create_entry_counter (st : MultilevelSharedPageTable) (primary : Page)
    (similar : List Page) (cid : Int) :
    (create_entry st primary similar cid).1.entry_counter = st.entry_counter + 1 := rfl

theorem create_entry_entry (st : MultilevelSharedPageTable) (primary : Page)
    (similar : List Page) (cid : Int) :
    (create_entry st primary similar cid).2 =
      { entry_id := st.entry_counter
        primary_page_id := primary.page_id
        similar_pages := similar.map (fun p => p.page_id)
        content_signature := primary.content_hash
        cluster_id := cid
        created_timestamp := 0 } := rfl

theorem create_entry_keys_nodup (st : MultilevelSharedPageTable) (primary : Page)
    (similar : List Page) (cid : Int) (h : (pyKeys st.page_to_entry).Nodup) :
    (pyKeys (create_entry st primary similar cid).1.page_to_entry).Nodup := by
  show (pyKeys (similar.foldl (fun d p => pyInsert d p.page_id st.entry_counter)
    (pyInsert st.page_to_entry primary.page_id st.entry_counter))).Nodup
  exact pyKeys_nodup_foldl_pyInsert Page.page_id st.entry_counter similar _
    (pyKeys_nodup_pyInsert _ _ _ h)

theorem resolveSimilar_mem (pageMap : List (Int × Page))
    (hcoh : ∀ k v, pyGet pageMap k = some v → v.page_id = k)
    (g : Int × List Int) (pg : Page) (hpg : pg ∈ resolveSimilar pageMap g) :
    pg.page_id ∈ g.2 ∧ pg.page_id ≠ g.1 := by
  rw [resolveSimilar, List.mem_filterMap] at hpg
  obtain ⟨pid, hpid, hf⟩ := hpg
  by_cases hne : pid ≠ g.1
  · rw [if_pos hne] at hf
    have hid := hcoh pid pg hf
    exact ⟨hid ▸ hpid, hid ▸ hne⟩
  · rw [if_neg hne] at hf
    simp at hf

/-- One entryStep preserves the table invariant, given that no page of the
current group is already bound, and newly bound pages come from the group. -/
theorem entryStep_preserve (pageMap : List (Int × Page))
    (hcoh : ∀ k v, pyGet pageMap k = some v → v.page_id = k)
    (g : Int × List Int) (hg : g.1 ∈ g.2)
    (st : MultilevelSharedPageTable) (cr : Nat) (cid : Int)
    (hinv : TableInv st)
    (hfresh : ∀ p eid, pyGet st.page_to_entry p = some eid → p ∉ g.2) :
    TableInv (entryStep pageMap (st, cr, cid) g).1 ∧
    (∀ p eid, pyGet (entryStep pageMap (st, cr, cid) g).1.page_to_entry p = some eid →
      p ∈ g.2 ∨ pyGet st.page_to_entry p = some eid) := by
  cases hpm : pyGet pageMap g.1 with
  | none =>
    simp only [entryStep, hpm]
    exact ⟨hinv, fun p eid h => Or.inr h⟩
  | some primary =>
    by_cases hemp : (resolveSimilar pageMap g).isEmpty
    · simp only [entryStep, hpm, if_pos hemp]
      exact ⟨hinv, fun p eid h => Or.inr h⟩
    · simp only [entryStep, hpm, if_neg hemp]
      have hpid : primary.page_id = g.1 := hcoh g.1 primary hpm
      have hmem : ∀ x ∈ (resolveSimilar pageMap g).map Page.page_id,
          x ∈ g.2 ∧ x ≠ g.1 := by
        intro x hx
        obtain ⟨pg, hpg, rfl⟩ := List.mem_map.mp hx
        exact resolveSimilar_mem pageMap hcoh g pg hpg
      constructor
      · refine ⟨create_entry_keys_nodup _ _ _ _ hinv.1, ?_, ?_, ?_, ?_⟩
        · intro eid e h
          rw [create_entry_table] at h
          rw [create_entry_counter]
          by_cases he : eid = st.entry_counter
          · omega
          · rw [if_neg he] at h
            have := hinv.2.1 eid e h
            omega
        · intro eid e h p hp
          rw [create_entry_table] at h
          rw [create_entry_p2e]
          by_cases he : eid = st.entry_counter
          · rw [if_pos he] at h
            obtain rfl : (create_entry st primary (resolveSimilar pageMap g) cid).2 = e :=
              Option.some_inj.mp h
            have hp' : p = primary.page_id ∨
                p ∈ (resolveSimilar pageMap g).map Page.page_id := by
              simpa [create_entry_entry, pagesOf] using hp
            rcases hp' with hp' | hp'
            · have hnot : p ∉ (resolveSimilar pageMap g).map Page.page_id := by
                intro hc
                exact (hmem p hc).2 (by rw [hp', hpid])
              rw [if_neg hnot, if_pos hp', he]
            · rw [if_pos hp', he]
          · rw [if_neg he] at h
            have hold := hinv.2.2.1 eid e h p hp
            have hnot1 : p ∉ (resolveSimilar pageMap g).map Page.page_id := by
              intro hc
              exact hfresh p eid hold (hmem p hc).1
            have hnot2 : ¬ p = primary.page_id := by
              intro hc
              refine hfresh p eid hold ?_
              rw [hc, hpid]
              exact hg
            rw [if_neg hnot1, if_neg hnot2]
            exact hold
        · intro eid e h
          rw [create_entry_table] at h
          by_cases he : eid = st.entry_counter
          · rw [if_pos he] at h
            obtain rfl : (create_entry st primary (resolveSimilar pageMap g) cid).2 = e :=
              Option.some_inj.mp h
            show (create_entry st primary (resolveSimilar pageMap g) cid).2.primary_page_id ∉
              (create_entry st primary (resolveSimilar pageMap g) cid).2.similar_pages
            rw [create_entry_entry]
            intro hc
            simp only at hc
            exact (hmem primary.page_id (by simpa using hc)).2 hpid
          · rw [if_neg he] at h
            exact hinv.2.2.2.1 eid e h
        · intro p eid h
          rw [create_entry_p2e] at h
          by_cases h1 : p ∈ (resolveSimilar pageMap g).map Page.page_id
          · rw [if_pos h1] at h
            obtain rfl : st.entry_counter = eid := Option.some_inj.mp h
            refine ⟨(create_entry st primary (resolveSimilar pageMap g) cid).2, ?_, ?_⟩
            · rw [create_entry_table, if_pos rfl]
            · rw [create_entry_entry, pagesOf]
              exact List.mem_cons_of_mem _ (by simpa using h1)
          · rw [if_neg h1] at h
            by_cases h2 : p = primary.page_id
            · rw [if_pos h2] at h
              obtain rfl : st.entry_counter = eid := Option.some_inj.mp h
              refine ⟨(create_entry st primary (resolveSimilar pageMap g) cid).2, ?_, ?_⟩
              · rw [create_entry_table, if_pos rfl]
              · rw [create_entry_entry, pagesOf]
                simp only [List.mem_cons]
                exact Or.inl h2
            · rw [if_neg h2] at h
              obtain ⟨e, he, hpe⟩ := hinv.2.2.2.2 p eid h
              have hlt := hinv.2.1 eid e he
              refine ⟨e, ?_, hpe⟩
              rw [create_entry_table, if_neg (by omega)]
              exact he
      · intro p eid h
        rw [create_entry_p2e] at h
        by_cases h1 : p ∈ (resolveSimilar pageMap g).map Page.page_id
        · exact Or.inl (hmem p h1).1
        · rw [if_neg h1] at h
          by_cases h2 : p = primary.page_id
          · refine Or.inl ?_
            rw [h2, hpid]
            exact hg
          · rw [if_neg h2] at h
            exact Or.inr h

/-- The entry-creation fold preserves the table invariant over a list of
groups with pairwise disjoint members, none already bound. -/
theorem entriesFold_inv (pageMap : List (Int × Page))
    (hcoh : ∀ k v, pyGet pageMap k = some v → v.page_id = k) :
    ∀ (G : List (Int × List Int)) (st : MultilevelSharedPageTable) (cr : Nat) (cid : Int),
    TableInv st →
    (∀ p eid, pyGet st.page_to_entry p = some eid → ∀ g ∈ G, p ∉ g.2) →
    List.Pairwise (fun g h => ∀ x ∈ g.2, x ∉ h.2) G →
    (∀ g ∈ G, g.1 ∈ g.2) →
    TableInv (G.foldl (entryStep pageMap) (st, cr, cid)).1 := by
  intro G
  induction G with
  | nil => intro st cr cid hinv _ _ _; exact hinv
  | cons g rest ih =>
    intro st cr cid hinv hfresh hpair hkey
    rw [List.foldl_cons]
    have hstep := entryStep_preserve pageMap hcoh g (hkey g (List.mem_cons_self _ _))
      st cr cid hinv (fun p eid h => hfresh p eid h g (List.mem_cons_self _ _))
    have hpair' := List.pairwise_cons.mp hpair
    exact ih (entryStep pageMap (st, cr, cid) g).1
      (entryStep pageMap (st, cr, cid) g).2.1 (entryStep pageMap (st, cr, cid) g).2.2
      hstep.1
      (by
        intro p eid h g' hg' hmem
        rcases hstep.2 p eid h with hc | hc
        · exact hpair'.1 g' hg' p hc hmem
        · exact hfresh p eid hc g' (List.mem_cons_of_mem _ hg') hmem)
      hpair'.2
      (fun g' hg' => hkey g' (List.mem_cons_of_mem _ hg'))


theorem build_table_state (self : MultilevelSharedPageTable) (pages : List Page)
    (pairs : List (Int × Int × ℚ)) :
    (build_table self pages pairs).1 =
      (((consumed_pairs pairs).map toGroup).foldl
        (entryStep (pageIdToPage pages)) (self, 0, 0)).1 := by
  show ((pairs.foldl groupStep ([], [])).1.foldl
    (entryStep (pageIdToPage pages)) (self, 0, 0)).1 = _
  rw [page_groups_eq]

theorem build_table_inv (pages : List Page) (pairs : List (Int × Int × ℚ)) :
    TableInv (build_table (MultilevelSharedPageTable.init 4096) pages pairs).1 := by
  rw [build_table_state]
  refine entriesFold_inv (pageIdToPage pages)
    (fun k v h => pageIdToPage_coherent pages k v h) _ _ 0 0 (tableInv_init 4096) ?_
    (groups_pairwise_disjoint pairs) ?_
  · intro p eid h
    simp [MultilevelSharedPageTable.init, pyGet] at h
  · intro g hg
    obtain ⟨pr, _, rfl⟩ := List.mem_map.mp hg
    exact toGroup_key_mem pr

theorem resolveSimilar_pair (pageMap : List (Int × Page)) (g : Int × List Int)
    (b : Int) (hb : b ≠ g.1) (hg2 : g.2 = [g.1, b]) (pgb : Page)
    (h2 : pyGet pageMap b = some pgb) : resolveSimilar pageMap g = [pgb] := by
  rw [resolveSimilar, hg2]
  simp [hb, h2]

theorem entryStep_len (pageMap : List (Int × Page)) (g : Int × List Int)
    (st : MultilevelSharedPageTable) (cr : Nat) (cid : Int)
    (hst : ∀ eid e, pyGet st.table eid = some e → e.similar_pages.length = 1)
    (hg : ∃ b, b ≠ g.1 ∧ g.2 = [g.1, b] ∧ pyGet pageMap g.1 ≠ none ∧
      pyGet pageMap b ≠ none) :
    ∀ eid e, pyGet (entryStep pageMap (st, cr, cid) g).1.table eid = some e →
      e.similar_pages.length = 1 := by
  obtain ⟨b, hb, hg2, h1, h2⟩ := hg
  cases hpm : pyGet pageMap g.1 with
  | none => exact absurd hpm h1
  | some primary =>
    cases hpgb : pyGet pageMap b with
    | none => exact absurd hpgb h2
    | some pgb =>
      have hres : resolveSimilar pageMap g = [pgb] :=
        resolveSimilar_pair pageMap g b hb hg2 pgb hpgb
      have hemp : ¬ (resolveSimilar pageMap g).isEmpty := by rw [hres]; simp
      simp only [entryStep, hpm, if_neg hemp]
      intro eid e h
      rw [create_entry_table] at h
      by_cases he : eid = st.entry_counter
      · rw [if_pos he] at h
        obtain rfl : (create_entry st primary (resolveSimilar pageMap g) cid).2 = e :=
          Option.some_inj.mp h
        show (create_entry st primary (resolveSimilar pageMap g) cid).2.similar_pages.length = 1
        rw [create_entry_entry]
        simp [hres]
      · rw [if_neg he] at h
        exact hst eid e h

theorem entriesFold_len (pageMap : List (Int × Page)) :
    ∀ (G : List (Int × List Int)) (st : MultilevelSharedPageTable) (cr : Nat) (cid : Int),
    (∀ eid e, pyGet st.table eid = some e → e.similar_pages.length = 1) →
    (∀ g ∈ G, ∃ b, b ≠ g.1 ∧ g.2 = [g.1, b] ∧ pyGet pageMap g.1 ≠ none ∧
      pyGet pageMap b ≠ none) →
    ∀ eid e, pyGet (G.foldl (entryStep pageMap) (st, cr, cid)).1.table eid = some e →
      e.similar_pages.length = 1 := by
  intro G
  induction G with
  | nil => intro st cr cid hst _; exact hst
  | cons g rest ih =>
    intro st cr cid hst hG
    rw [List.foldl_cons]
    exact ih (entryStep pageMap (st, cr, cid) g).1
      (entryStep pageMap (st, cr, cid) g).2.1 (entryStep pageMap (st, cr, cid) g).2.2
      (entryStep_len pageMap g st cr cid hst (hG g (List.mem_cons_self _ _)))
      (fun g' hg' => hG g' (List.mem_cons_of_mem _ hg'))

/-- C1: for every index built by build_table on a fresh table, and every
entry the build created, looking up the entry's primary page id and looking
up any of its similar page ids both return that same entry. -/
theorem build_table_lookup_consistent (pages : List Page)
    (pairs : List (Int × Int × ℚ)) (eid : Nat) (e : SharedPageTableEntry)
    (h : pyGet (build_table (MultilevelSharedPageTable.init 4096) pages pairs).1.table
      eid = some e) :
    lookup (build_table (MultilevelSharedPageTable.init 4096) pages pairs).1
        e.primary_page_id = some e ∧
    ∀ p ∈ e.similar_pages,
      lookup (build_table (MultilevelSharedPageTable.init 4096) pages pairs).1 p =
        some e := by
  have hinv := build_table_inv pages pairs
  have h2 := hinv.2.2.1 eid e h
  constructor
  · have hb := h2 e.primary_page_id (List.mem_cons_self _ _)
    simp only [lookup, hb]
    exact h
  · intro p hp
    have hb := h2 p (List.mem_cons_of_mem _ hp)
    simp only [lookup, hb]
    exact h

/-- C4: after a single build_table call on a fresh index, the page map binds
every page id at most once (its keys are distinct and distinct entries cover
disjoint page sets), and no entry's primary page id appears in that entry's
own similar-pages list. -/
theorem build_table_page_unique (pages : List Page) (pairs : List (Int × Int × ℚ)) :
    ((pyKeys (build_table (MultilevelSharedPageTable.init 4096) pages
        pairs).1.page_to_entry).Nodup) ∧
    (∀ eid1 e1 eid2 e2 p,
      pyGet (build_table (MultilevelSharedPageTable.init 4096) pages pairs).1.table
        eid1 = some e1 →
      pyGet (build_table (MultilevelSharedPageTable.init 4096) pages pairs).1.table
        eid2 = some e2 →
      eid1 ≠ eid2 → p ∈ pagesOf e1 → p ∉ pagesOf e2) ∧
    (∀ eid e,
      pyGet (build_table (MultilevelSharedPageTable.init 4096) pages pairs).1.table
        eid = some e → e.primary_page_id ∉ e.similar_pages) := by
  have hinv := build_table_inv pages pairs
  refine ⟨hinv.1, ?_, hinv.2.2.2.1⟩
  intro eid1 e1 eid2 e2 p h1 h2 hne hp1 hp2
  have hb1 := hinv.2.2.1 eid1 e1 h1 p hp1
  have hb2 := hinv.2.2.1 eid2 e2 h2 p hp2
  rw [hb1] at hb2
  exact hne (Option.some_inj.mp hb2)

/-- C10: when every consumed similar pair of a build_table call has two
distinct page ids both present in the known page set, every entry created
has a similar-pages list of length exactly one (so no entry aggregates more
than two pages): both ids of a consumed pair are immediately marked
processed, so a group never grows beyond its first pair. -/
theorem build_table_pair_entries (pages : List Page) (pairs : List (Int × Int × ℚ))
    (hcons : ∀ pr ∈ consumed_pairs pairs, pr.1 ≠ pr.2 ∧
      pr.1 ∈ pages.map Page.page_id ∧ pr.2 ∈ pages.map Page.page_id) :
    ∀ eid e,
      pyGet (build_table (MultilevelSharedPageTable.init 4096) pages pairs).1.table
        eid = some e → e.similar_pages.length = 1 := by
  rw [build_table_state]
  refine entriesFold_len (pageIdToPage pages) _ _ 0 0 ?_ ?_
  · intro eid e h
    simp [MultilevelSharedPageTable.init, pyGet] at h
  · intro g hg
    obtain ⟨pr, hpr, rfl⟩ := List.mem_map.mp hg
    obtain ⟨hne, hm1, hm2⟩ := hcons pr hpr
    refine ⟨pr.2, ?_, ?_, ?_, ?_⟩
    · show pr.2 ≠ (toGroup pr).1
      rw [toGroup]
      exact fun hc => hne hc.symm
    · show (toGroup pr).2 = [(toGroup pr).1, pr.2]
      rw [toGroup]
      simp only
      rw [if_neg (fun hc : pr.2 = pr.1 => hne hc.symm)]
    · show pyGet (pageIdToPage pages) (toGroup pr).1 ≠ none
      rw [toGroup]
      exact (pageIdToPage_mem pages pr.1).mpr hm1
    · exact (pageIdToPage_mem pages pr.2).mpr hm2

/-- Concrete two-page fixture for the build_table witnesses. -/
def w1Pages : List Page :=
  [{ page_id := 1, vm_id := 1, app_id := 1, content_hash := "h1", object_dump := "d1" },
   { page_id := 2, vm_id := 1, app_id := 1, content_hash := "h2", object_dump := "d1" }]

def w1Pairs : List (Int × Int × ℚ) := [(1, 2, 80)]

def w1Table : MultilevelSharedPageTable :=
  (build_table (MultilevelSharedPageTable.init 4096) w1Pages w1Pairs).1

def w1Entry : SharedPageTableEntry :=
  { entry_id := 0, primary_page_id := 1, similar_pages := [2],
    content_signature := "h1", cluster_id := 0, created_timestamp := 0 }

/-- C1 witness: on the two-page fixture the build creates entry 0, and
looking up its primary page (1) and its similar page (2) returns it. -/
theorem build_table_lookup_consistent_witness :
    lookup w1Table (1 : Int) = some w1Entry ∧
    ∀ p ∈ w1Entry.similar_pages, lookup w1Table p = some w1Entry :=
  build_table_lookup_consistent w1Pages w1Pairs 0 w1Entry (by decide)

/-- Concrete four-page fixture producing two entries. -/
def w2Pages : List Page :=
  [{ page_id := 1, vm_id := 1, app_id := 1, content_hash := "h1", object_dump := "d1" },
   { page_id := 2, vm_id := 1, app_id := 1, content_hash := "h2", object_dump := "d1" },
   { page_id := 3, vm_id := 2, app_id := 2, content_hash := "h3", object_dump := "d2" },
   { page_id := 4, vm_id := 2, app_id := 2, content_hash := "h4", object_dump := "d2" }]

def w2Pairs : List (Int × Int × ℚ) := [(1, 2, 80), (3, 4, 90)]

def w2Table : MultilevelSharedPageTable :=
  (build_table (MultilevelSharedPageTable.init 4096) w2Pages w2Pairs).1

def w2E0 : SharedPageTableEntry :=
  { entry_id := 0, primary_page_id := 1, similar_pages := [2],
    content_signature := "h1", cluster_id := 0, created_timestamp := 0 }

def w2E1 : SharedPageTableEntry :=
  { entry_id := 1, primary_page_id := 3, similar_pages := [4],
    content_signature := "h3", cluster_id := 1, created_timestamp := 0 }

/-- C4 witness: on the four-page fixture, page 1 of entry 0 is not covered
by entry 1, and entry 0's primary page is not among its similar pages. -/
theorem build_table_page_unique_witness :
    (1 : Int) ∉ pagesOf w2E1 ∧ w2E0.primary_page_id ∉ w2E0.similar_pages :=
  ⟨(build_table_page_unique w2Pages w2Pairs).2.1 0 w2E0 1 w2E1 (1 : Int) (by decide)
    (by decide) (by decide) (by decide),
   (build_table_page_unique w2Pages w2Pairs).2.2 0 w2E0 (by decide)⟩

/-- C10 witness: on the two-page fixture, whose only consumed pair (1, 2)
has distinct ids both present, the single created entry has exactly one
similar page. -/
theorem build_table_pair_entries_witness : w1Entry.similar_pages.length = 1 :=
  build_table_pair_entries w1Pages w1Pairs (by decide) 0 w1Entry (by decide)

/-! ## Module 2: GeneticAlgorithmModule -/

structure GeneticAlgorithmModule where
  population_size : Int
  generations : Int
  mutation_rate : ℚ
deriving DecidableEq, Repr

/-- GeneticAlgorithmModule.__init__ (defaults 50, 20, 0.1): the parameters
are stored as given; the constructor performs no validation. -/
def GeneticAlgorithmModule.init (population_size : Int := 50)
    (generations : Int := 20) (mutation_rate : ℚ := 1/10) : GeneticAlgorithmModule :=
  { population_size := population_size, generations := generations,
    mutation_rate := mutation_rate }

/-- The global stream of Python's random module, as an indexed oracle:
floats k is the k-th draw when it is a random.random() call, ints k lo hi
the k-th draw when it is a randint(lo, hi) call (in range by contract).
Callers consume draw indices in order and return the next unused index. -/
structure RandomSource where
  floats : Nat → ℚ
  ints : Nat → Int → Int → Int

/-- The inner loop of the Levenshtein row update: walk s2 together with the
aligned previous row (previous_row[j], previous_row[j+1], ...), carrying the
last value appended to the current row. -/
def levRowAux (c1 : Char) : List Char → List Nat → Nat → List Nat
  | [], _, _ => []
  | c2 :: s2, pj :: pj1 :: prest, last =>
    let insertions := pj1 + 1
    let deletions := last + 1
    let substitutions := pj + (if c1 ≠ c2 then 1 else 0)
    let v := min insertions (min deletions substitutions)
    v :: levRowAux c1 s2 (pj1 :: prest) v
  | _ :: _, _, _ => []

/-- The DP body of edit_distance, reached with len(s1) >= len(s2): row
previous_row = range(len(s2)+1), one row update per character of s1 (the
accumulator also carries the enumerate index), answer previous_row[-1]. -/
def editDistanceDP (s1 s2 : List Char) : Nat :=
  if s2.length = 0 then s1.length
  else
    let r := s1.foldl (fun (acc : List Nat × Nat) c1 =>
      ((acc.2 + 1) :: levRowAux c1 s2 acc.1 (acc.2 + 1), acc.2 + 1))
      (List.range (s2.length + 1), 0)
    r.1.getLast?.getD 0

/-- GeneticAlgorithmModule.edit_distance (Levenshtein).  The Python function
first swaps its arguments when len(s1) < len(s2); that single self-call is
unfolded into a conditional. -/
def edit_distance (s1 s2 : String) : Nat :=
  if s1.toList.length < s2.toList.length then editDistanceDP s2.toList s1.toList
  else editDistanceDP s1.toList s2.toList

/-- GeneticAlgorithmModule.fitness_function: identical dumps score 100,
otherwise normalized edit-distance similarity clamped to [0, 100]. -/
def fitness_function (page1 page2 : Page) : ℚ :=
  if page1.object_dump = page2.object_dump then 100
  else
    let distance := edit_distance page1.object_dump page2.object_dump
    let max_len := max page1.object_dump.length page2.object_dump.length
    if max_len = 0 then 100
    else max 0 (min 100 (((max_len : ℚ) - (distance : ℚ)) / (max_len : ℚ) * 100))

/-- Insertion step of a stable descending sort by key: pass over strictly
greater keys, insert before the first key not greater (so earlier elements
with an equal key stay ahead, as Python's stable sorted with reverse=True). -/
def insertDescBy (f : Nat → ℚ) (i : Nat) : List Nat → List Nat
  | [] => [i]
  | j :: t => if f i < f j then j :: insertDescBy f i t else i :: j :: t

/-- sorted(range(n), key=f, reverse=True): the unique stable descending
order by key. -/
def sortedIndicesDesc (f : Nat → ℚ) (n : Nat) : List Nat :=
  (List.range n).foldr (insertDescBy f) []

/-- Python list slicing l[:n] with a possibly negative or oversized bound. -/
def pyTake (l : List α) (n : Int) : List α :=
  if 0 ≤ n then l.take n.toNat else l.take (l.length - (-n).toNat)

/-- The mutation loop of one generation: len(selected)//2 iterations, each
drawing one float and, below the mutation rate, three randints to overwrite
one population slot with a random re-pairing. -/
def mutationLoop (rng : RandomSource) (pages : List Page) (mutation_rate : ℚ) :
    Nat → List (Page × Page) → Nat → List (Page × Page) × Nat
  | 0, new_population, k => (new_population, k)
  | n + 1, new_population, k =>
    if rng.floats k < mutation_rate then
      let idx := rng.ints (k + 1) 0 ((pages.length : Int) - 1)
      let page_idx := rng.ints (k + 2) 0 ((pages.length : Int) - 1)
      let pair_idx := rng.ints (k + 3) 0 ((new_population.length : Int) - 1)
      mutationLoop rng pages mutation_rate n
        (new_population.set pair_idx.toNat
          (pages.getD idx.toNat default, pages.getD page_idx.toNat default)) (k + 4)
    else mutationLoop rng pages mutation_rate n new_population (k + 1)

/-- One generation of the GA search: score the population, keep the top
population_size pairs (stable by original order, Python slice semantics),
append every kept pair scoring above 70 to the result, then mutate. -/
def gaGeneration (self : GeneticAlgorithmModule) (rng : RandomSource)
    (pages : List Page) (state : List (Page × Page) × List (Int × Int × ℚ) × Nat) :
    List (Page × Page) × List (Int × Int × ℚ) × Nat :=
  let population := state.1
  let fitness_scores := population.map (fun p => fitness_function p.1 p.2)
  let sorted_indices := sortedIndicesDesc (fun i => fitness_scores.getD i 0)
    fitness_scores.length
  let selected_population := (pyTake sorted_indices self.population_size).map
    (fun i => population.getD i default)
  let selected_fitness := (pyTake sorted_indices self.population_size).map
    (fun i => fitness_scores.getD i 0)
  let similar_pairs := state.2.1 ++
    ((selected_population.zip selected_fitness).filterMap (fun pf =>
      if pf.2 > 70 then some (pf.1.1.page_id, pf.1.2.page_id, pf.2) else none))
  let r := mutationLoop rng pages self.mutation_rate (selected_population.length / 2)
    selected_population state.2.2
  (r.1, similar_pairs, r.2)

/-- GeneticAlgorithmModule.detect_similar_pages.  Takes the random oracle
and the current stream position; returns the accumulated similar pairs and
the new stream position. -/
def detect_similar_pages (self : GeneticAlgorithmModule) (rng : RandomSource)
    (k0 : Nat) (pages : List Page) : List (Int × Int × ℚ) × Nat :=
  if pages.length < 2 then ([], k0)
  else
    let population := (List.range pages.length).flatMap (fun i =>
      (List.range pages.length).filterMap (fun j =>
        if i < j then some (pages.getD i default, pages.getD j default) else none))
    let final := (List.range self.generations.toNat).foldl
      (fun st _ => gaGeneration self rng pages st) (population, [], k0)
    (final.2.1, final.2.2)

/-- A concrete constant random oracle for the explorer counterexample. -/
def constRng : RandomSource := { floats := fun _ => 0, ints := fun _ lo _ => lo }

def cexPages : List Page :=
  [{ page_id := 1, vm_id := 1, app_id := 1, content_hash := "h1", object_dump := "d1" },
   { page_id := 2, vm_id := 1, app_id := 1, content_hash := "h2", object_dump := "d2" }]

/-- C8 counterexample: constructing the explorer with population size 0 and
generation count 0 succeeds, storing the invalid parameters unvalidated,
and invoking detect_similar_pages then returns an empty result without
consuming randomness; no ConfigurationError-kind failure occurs at either
boundary. -/
theorem ga_validation_cex :
    GeneticAlgorithmModule.init 0 0 (1/10) =
      { population_size := 0, generations := 0, mutation_rate := 1/10 } ∧
    detect_similar_pages (GeneticAlgorithmModule.init 0 0 (1/10)) constRng 0 cexPages =
      ([], 0) :=
  ⟨rfl, rfl⟩

/-- C8 amended: the explorer performs no parameter validation.  Construction
with a non-positive population size or generation count succeeds and stores
the parameters as given, and invoking detect_similar_pages with a
non-positive generation count returns an empty result (leaving the random
stream untouched) instead of failing fast with a ConfigurationError. -/
theorem ga_no_validation :
    (∀ (p g : Int) (m : ℚ), GeneticAlgorithmModule.init p g m =
      { population_size := p, generations := g, mutation_rate := m }) ∧
    (∀ (self : GeneticAlgorithmModule) (rng : RandomSource) (k0 : Nat)
      (pages : List Page), self.generations ≤ 0 →
      detect_similar_pages self rng k0 pages = ([], k0)) := by
  constructor
  · intro p g m; rfl
  · intro self rng k0 pages hg
    rw [detect_similar_pages]
    by_cases hlen : pages.length < 2
    · rw [if_pos hlen]
    · rw [if_neg hlen]
      have h0 : self.generations.toNat = 0 := Int.toNat_of_nonpos hg
      rw [h0]
      rfl

/-- C8 witness for the amended theorem, at population size 0 and generation
count -5. -/
theorem ga_no_validation_witness :
    GeneticAlgorithmModule.init 0 (-5) (1/10) =
      { population_size := 0, generations := -5, mutation_rate := 1/10 } ∧
    detect_similar_pages (GeneticAlgorithmModule.init 0 (-5) (1/10)) constRng 3 cexPages =
      ([], 3) :=
  ⟨ga_no_validation.1 0 (-5) (1/10),
   ga_no_validation.2 (GeneticAlgorithmModule.init 0 (-5) (1/10)) constRng 3 cexPages
     (by decide)⟩

/-! ## Module 1 continued: application clustering (HAC) -/

/-- The i < j enumeration pairs of the matrix loop of cluster_applications,
in Python iteration order. -/
def appPairs (applications : List Application) : List (Application × Application) :=
  applications.enum.flatMap (fun p =>
    applications.enum.filterMap (fun q =>
      if p.1 < q.1 then some (p.2, q.2) else none))

/-- The pairwise similarity matrix dict keyed by (app1_id, app2_id); a
similarity call that raises aborts the whole clustering call (none). -/
def buildSimilarityMatrix (applications : List Application) :
    Option (List ((Int × Int) × ℚ)) :=
  (appPairs applications).foldlM (fun m pq =>
    (calculate_similarity pq.1.fuzzy_hash pq.2.fuzzy_hash).map (fun s =>
      pyInsert m (pq.1.app_id, pq.2.app_id) s)) []

/-- clusters = {i: [app.app_id] for i, app in enumerate(applications)}. -/
def initClusters (ids : List Int) : List (Nat × List Int) :=
  ids.enum.map (fun p => (p.1, [p.2]))

/-- cluster_mapping = {app.app_id: i for i, app in enumerate(applications)}. -/
def initMapping (ids : List Int) : List (Int × Nat) :=
  ids.enum.foldl (fun d p => pyInsert d p.2 p.1) []

/-- One matrix entry of the best-pair scan: a pair qualifies when its
similarity exceeds the threshold and its two apps currently lie in distinct
clusters; among qualifying pairs the first strictly-highest similarity
wins (best_sim starts at -1). -/
def findBestStep (mapping : List (Int × Nat))
    (acc : ℚ × Option (Nat × Nat × Int × Int)) (e : (Int × Int) × ℚ) :
    ℚ × Option (Nat × Nat × Int × Int) :=
  if e.2 > SIMILARITY_THRESHOLD then
    match pyGet mapping e.1.1, pyGet mapping e.1.2 with
    | some c1, some c2 =>
      if c1 ≠ c2 then
        (if e.2 > acc.1 then (e.2, some (c1, c2, e.1.1, e.1.2)) else acc)
      else acc
    | _, _ => acc
  else acc

/-- The best-pair scan of one while-loop iteration, over the matrix entries
in insertion order. -/
def findBest (matrix : List ((Int × Int) × ℚ)) (mapping : List (Int × Nat)) :
    Option (Nat × Nat × Int × Int) :=
  (matrix.foldl (findBestStep mapping) (-1, none)).2

/-- One merge: concatenate the two member lists under a fresh cluster id,
repoint every member, delete the two old clusters.  Python indexes
clusters[c1] directly (KeyError if absent); the invariant proved below
guarantees both keys are present, so the getD default is never taken. -/
def mergeStep (clusters : List (Nat × List Int)) (mapping : List (Int × Nat))
    (counter : Nat) (c1 c2 : Nat) : List (Nat × List Int) × List (Int × Nat) :=
  let members := ((pyGet clusters c1).getD []) ++ ((pyGet clusters c2).getD [])
  let clusters1 := pyInsert clusters counter members
  let mapping1 := members.foldl (fun d a => pyInsert d a counter) mapping
  (pyErase (pyErase clusters1 c1) c2, mapping1)

/-- The while-merged loop with an explicit fuel bound; hac_reaches_fixpoint
below proves that len(applications) fuel always reaches the no-candidate
fixpoint, so the bounded loop coincides with the unbounded Python loop. -/
def hacLoop (matrix : List ((Int × Int) × ℚ)) :
    Nat → List (Nat × List Int) → List (Int × Nat) → Nat →
      List (Nat × List Int) × List (Int × Nat)
  | 0, clusters, mapping, _ => (clusters, mapping)
  | fuel + 1, clusters, mapping, counter =>
    match findBest matrix mapping with
    | none => (clusters, mapping)
    | some (c1, c2, _, _) =>
      hacLoop matrix fuel (mergeStep clusters mapping counter c1 c2).1
        (mergeStep clusters mapping counter c1 c2).2 (counter + 1)

/-- FuzzyHashingModule.cluster_applications.  Returns none when a similarity
comparison raises (empty first digest of unequal digests). -/
def cluster_applications (applications : List Application) :
    Option (List (Nat × List Int)) :=
  if applications.isEmpty then some [] else
    (buildSimilarityMatrix applications).map (fun matrix =>
      (hacLoop matrix applications.length
        (initClusters (applications.map (fun a => a.app_id)))
        (initMapping (applications.map (fun a => a.app_id)))
        applications.length).1)

/-- FuzzyHashingModule.process_applications: fingerprint every application
(vm_id = app_id // 100, floor division; name = "App_<id>") and cluster. -/
def process_applications (md5hexdigest : List Nat → String)
    (app_contents : List (Int × List Nat)) :
    Option (List (Int × String) × List (Nat × List Int)) :=
  let fuzzy_hashes := app_contents.foldl
    (fun d p => pyInsert d p.1 (compute_fuzzy_hash md5hexdigest p.2)) []
  let applications := app_contents.map (fun p =>
    { app_id := p.1, vm_id := Int.fdiv p.1 100, name := "App_" ++ toString p.1,
      fuzzy_hash := compute_fuzzy_hash md5hexdigest p.2 : Application })
  (cluster_applications applications).map (fun clusters => (fuzzy_hashes, clusters))

/-! ## The orchestrator -/

structure Statistics where
  total_pages_merged : Int
  total_memory_saved_bytes : Int
  total_memory_saved_mb : ℚ
  average_page_savings : ℚ
deriving DecidableEq, Repr

/-- MemoryDeduplicationEngine.get_statistics (average 0 when no merges). -/
def get_statistics (self : MemoryDeduplicationEngine) : Statistics :=
  { total_pages_merged := self.dedup_count
    total_memory_saved_bytes := self.total_memory_saved
    total_memory_saved_mb := (self.total_memory_saved : ℚ) / 1024 / 1024
    average_page_savings := if self.dedup_count > 0
      then (self.total_memory_saved : ℚ) / (self.dedup_count : ℚ) * 1024 else 0 }

structure OfflineResult where
  fuzzy_hashes : List (Int × String)
  application_clusters : List (Nat × List Int)
  num_clusters : Nat
  similar_page_pairs : List (Int × Int × ℚ)
  num_similar_pairs : Nat
  mspt_entries : Nat

structure OnlineResult where
  pages_merged : Int
  memory_saved_bytes : Int
  memory_saved_mb : ℚ
  statistics : Statistics
deriving DecidableEq, Repr

/-- mSMDOrchestrator state: the fuzzy-hashing module is stateless, the GA
module holds its parameters, and mspt / dedup_engine start as None. -/
structure mSMDOrchestrator where
  ga_module : GeneticAlgorithmModule
  mspt : Option MultilevelSharedPageTable
  dedup_engine : Option MemoryDeduplicationEngine
deriving DecidableEq, Repr

/-- mSMDOrchestrator.__init__. -/
def mSMDOrchestrator.init : mSMDOrchestrator :=
  { ga_module := GeneticAlgorithmModule.init 50 20 (1/10)
    mspt := none
    dedup_engine := none }

/-- mSMDOrchestrator.offline_processing: cluster the applications, run the
explorer per cluster over the union of the cluster apps' pages, then build
one fresh MSPT over all pages with the accumulated pairs.  A clustering
failure propagates (none) before self.mspt is assigned. -/
def offline_processing (self : mSMDOrchestrator) (md5hexdigest : List Nat → String)
    (rng : RandomSource) (k0 : Nat) (app_contents : List (Int × List Nat))
    (app_pages : List (Int × List Page)) :
    Option (mSMDOrchestrator × OfflineResult × Nat) :=
  (process_applications md5hexdigest app_contents).map (fun fc =>
    let r := fc.2.foldl (fun (acc : List (Int × Int × ℚ) × Nat) cl =>
      let cluster_pages := cl.2.foldl (fun ps app_id =>
        match pyGet app_pages app_id with
        | some pgs => ps ++ pgs
        | none => ps) []
      if cluster_pages.isEmpty then acc
      else
        ((acc.1 ++ (detect_similar_pages self.ga_module rng acc.2 cluster_pages).1),
          (detect_similar_pages self.ga_module rng acc.2 cluster_pages).2)) ([], k0)
    let all_pages := app_pages.foldl (fun ps p => ps ++ p.2) []
    let bt := build_table (MultilevelSharedPageTable.init 4096) all_pages r.1
    ({ self with mspt := some bt.1 },
     { fuzzy_hashes := fc.1
       application_clusters := fc.2
       num_clusters := fc.2.length
       similar_page_pairs := r.1
       num_similar_pairs := r.1.length
       mspt_entries := bt.2 }, r.2))

/-- mSMDOrchestrator.online_processing: without a built index it reports the
failure (through the logger, outside this embedding) and returns an empty
result, leaving the orchestrator untouched; otherwise it binds a fresh
engine to the index and merges. -/
def online_processing (self : mSMDOrchestrator) (vm_pages : List (Int × List Page)) :
    mSMDOrchestrator × Option OnlineResult :=
  match self.mspt with
  | none => (self, none)
  | some mspt =>
    let r := merge_pages (MemoryDeduplicationEngine.init mspt) vm_pages
    ({ self with dedup_engine := some r.1 },
     some { pages_merged := r.2.1
            memory_saved_bytes := r.2.2
            memory_saved_mb := (r.2.2 : ℚ) / 1024 / 1024
            statistics := get_statistics r.1 })

/-- C9: calling online_processing before offline_processing has built an
index (self.mspt still None, as on a fresh orchestrator) returns an empty
result and leaves the orchestrator — including the engine field — exactly
unchanged, rather than raising an exception. -/
theorem online_requires_offline :
    (mSMDOrchestrator.init.mspt = none) ∧
    (∀ (self : mSMDOrchestrator) (vm_pages : List (Int × List Page)),
      self.mspt = none → online_processing self vm_pages = (self, none)) := by
  refine ⟨rfl, ?_⟩
  intro self vm_pages h
  rw [online_processing, h]

/-- C9 witness: a fresh orchestrator, asked to merge an empty snapshot,
returns the empty result and its state is unchanged. -/
theorem online_requires_offline_witness :
    online_processing mSMDOrchestrator.init [] = (mSMDOrchestrator.init, none) :=
  online_requires_offline.2 mSMDOrchestrator.init [] online_requires_offline.1

/-! ## HAC: analysis of the best-pair scan -/

/-- A matrix entry qualifies as a merge candidate for the current mapping:
similarity above the threshold and two distinct current clusters. -/
def Qualifies (mapping : List (Int × Nat)) (e : (Int × Int) × ℚ) : Prop :=
  e.2 > SIMILARITY_THRESHOLD ∧ ∃ c1 c2 : Nat, pyGet mapping e.1.1 = some c1 ∧
    pyGet mapping e.1.2 = some c2 ∧ c1 ≠ c2

theorem findBestStep_cases (mapping : List (Int × Nat))
    (acc : ℚ × Option (Nat × Nat × Int × Int)) (e : (Int × Int) × ℚ) :
    findBestStep mapping acc e = acc ∨
    (∃ c1 c2, e.2 > SIMILARITY_THRESHOLD ∧ pyGet mapping e.1.1 = some c1 ∧
      pyGet mapping e.1.2 = some c2 ∧ c1 ≠ c2 ∧
      findBestStep mapping acc e = (e.2, some (c1, c2, e.1.1, e.1.2))) := by
  rw [findBestStep]
  by_cases h30 : e.2 > SIMILARITY_THRESHOLD
  · rw [if_pos h30]
    cases hg1 : pyGet mapping e.1.1 with
    | none => left; rfl
    | some c1 =>
      cases hg2 : pyGet mapping e.1.2 with
      | none => left; rfl
      | some c2 =>
        by_cases hne : c1 = c2
        · left
          show (if c1 ≠ c2 then _ else acc) = acc
          rw [if_neg (by simpa using hne)]
        · by_cases hgt : e.2 > acc.1
          · right
            refine ⟨c1, c2, h30, rfl, rfl, hne, ?_⟩
            show (if c1 ≠ c2 then (if e.2 > acc.1 then _ else acc) else acc) = _
            rw [if_pos hne, if_pos hgt]
          · left
            show (if c1 ≠ c2 then (if e.2 > acc.1 then _ else acc) else acc) = acc
            rw [if_pos hne, if_neg hgt]
  · rw [if_neg h30]
    left
    rfl

theorem findBestStep_keep (mapping : List (Int × Nat))
    (acc : ℚ × Option (Nat × Nat × Int × Int)) (e : (Int × Int) × ℚ)
    (h : ¬ Qualifies mapping e) : findBestStep mapping acc e = acc := by
  rcases findBestStep_cases mapping acc e with hc | ⟨c1, c2, h30, hg1, hg2, hne, _⟩
  · exact hc
  · exact absurd (⟨h30, ⟨c1, c2, hg1, hg2, hne⟩⟩ : Qualifies mapping e) h

theorem findBestStep_of_qualifies (mapping : List (Int × Nat))
    (acc : ℚ × Option (Nat × Nat × Int × Int)) (e : (Int × Int) × ℚ)
    (c1 c2 : Nat) (h30 : e.2 > SIMILARITY_THRESHOLD)
    (hg1 : pyGet mapping e.1.1 = some c1) (hg2 : pyGet mapping e.1.2 = some c2)
    (hne : c1 ≠ c2) (hgt : e.2 > acc.1) :
    findBestStep mapping acc e = (e.2, some (c1, c2, e.1.1, e.1.2)) := by
  rw [findBestStep, if_pos h30, hg1, hg2]
  show (if c1 ≠ c2 then (if e.2 > acc.1 then _ else acc) else acc) = _
  rw [if_pos hne, if_pos hgt]

theorem findBest_fold_some_persist (mapping : List (Int × Nat)) :
    ∀ (m : List ((Int × Int) × ℚ)) (acc : ℚ × Option (Nat × Nat × Int × Int)),
    acc.2 ≠ none → (m.foldl (findBestStep mapping) acc).2 ≠ none := by
  intro m
  induction m with
  | nil => intro acc h; exact h
  | cons e rest ih =>
    intro acc h
    rw [List.foldl_cons]
    refine ih _ ?_
    rcases findBestStep_cases mapping acc e with hc | ⟨c1, c2, _, _, _, _, hstep⟩
    · rw [hc]; exact h
    · rw [hstep]; simp

theorem findBest_none_sound (mapping : List (Int × Nat)) :
    ∀ (m : List ((Int × Int) × ℚ)) (acc : ℚ × Option (Nat × Nat × Int × Int)),
    acc.1 = -1 → (m.foldl (findBestStep mapping) acc).2 = none →
    ∀ e ∈ m, ¬ Qualifies mapping e := by
  intro m
  induction m with
  | nil => intro acc _ _ e he; simp at he
  | cons e rest ih =>
    intro acc h1 hres f hf
    rw [List.foldl_cons] at hres
    by_cases hq : Qualifies mapping e
    · exfalso
      obtain ⟨h30, c1, c2, hg1, hg2, hne⟩ := hq
      have hgt : e.2 > acc.1 := by
        rw [h1]
        have h30' : (30 : ℚ) < e.2 := by
          have : SIMILARITY_THRESHOLD = (30 : ℚ) := rfl
          rw [← this]
          exact h30
        linarith
      rw [findBestStep_of_qualifies mapping acc e c1 c2 h30 hg1 hg2 hne hgt] at hres
      exact findBest_fold_some_persist mapping rest _ (by simp) hres
    · rw [findBestStep_keep mapping acc e hq] at hres
      rcases List.mem_cons.mp hf with rfl | hf'
      · exact hq
      · exact ih acc h1 hres f hf'

theorem findBest_fold_some_sound (mapping : List (Int × Nat))
    (C : Nat × Nat × Int × Int → Prop) :
    ∀ (m : List ((Int × Int) × ℚ)) (acc : ℚ × Option (Nat × Nat × Int × Int)),
    (∀ r, acc.2 = some r → C r) →
    (∀ e ∈ m, ∀ c1 c2 : Nat, e.2 > SIMILARITY_THRESHOLD →
      pyGet mapping e.1.1 = some c1 → pyGet mapping e.1.2 = some c2 → c1 ≠ c2 →
      C (c1, c2, e.1.1, e.1.2)) →
    ∀ r, (m.foldl (findBestStep mapping) acc).2 = some r → C r := by
  intro m
  induction m with
  | nil => intro acc hacc _ r hr; exact hacc r hr
  | cons e rest ih =>
    intro acc hacc hm r hr
    rw [List.foldl_cons] at hr
    refine ih (findBestStep mapping acc e) ?_
      (fun f hf => hm f (List.mem_cons_of_mem _ hf)) r hr
    intro r' hr'
    rcases findBestStep_cases mapping acc e with hc | ⟨c1, c2, h30, hg1, hg2, hne, hstep⟩
    · rw [hc] at hr'
      exact hacc r' hr'
    · rw [hstep] at hr'
      simp at hr'
      rw [← hr']
      exact hm e (List.mem_cons_self _ _) c1 c2 h30 hg1 hg2 hne

theorem findBest_none (matrix : List ((Int × Int) × ℚ)) (mapping : List (Int × Nat))
    (h : findBest matrix mapping = none) : ∀ e ∈ matrix, ¬ Qualifies mapping e :=
  findBest_none_sound mapping matrix (-1, none) rfl h

theorem findBest_some (matrix : List ((Int × Int) × ℚ)) (mapping : List (Int × Nat))
    (r : Nat × Nat × Int × Int) (h : findBest matrix mapping = some r) :
    ∃ e ∈ matrix, ∃ c1 c2 : Nat, e.2 > SIMILARITY_THRESHOLD ∧
      pyGet mapping e.1.1 = some c1 ∧ pyGet mapping e.1.2 = some c2 ∧ c1 ≠ c2 ∧
      r = (c1, c2, e.1.1, e.1.2) := by
  refine findBest_fold_some_sound mapping
    (fun r' => ∃ e ∈ matrix, ∃ c1 c2 : Nat, e.2 > SIMILARITY_THRESHOLD ∧
      pyGet mapping e.1.1 = some c1 ∧ pyGet mapping e.1.2 = some c2 ∧ c1 ≠ c2 ∧
      r' = (c1, c2, e.1.1, e.1.2)) matrix (-1, none) ?_ ?_ r h
  · intro r' hr'
    simp at hr'
  · intro e he c1 c2 h30 hg1 hg2 hne
    exact ⟨e, he, c1, c2, h30, hg1, hg2, hne, rfl⟩

/-! ## HAC: the cluster/mapping invariant -/

theorem pyGet_foldl_pyInsert_const_id [DecidableEq α] (c : β) :
    ∀ (xs : List α) (d : List (α × β)) (x : α),
    pyGet (xs.foldl (fun d g => pyInsert d g c) d) x =
      if x ∈ xs then some c else pyGet d x := by
  intro xs
  induction xs with
  | nil => intro d x; simp
  | cons g t ih =>
    intro d x
    simp only [List.foldl_cons, List.mem_cons]
    rw [ih]
    by_cases hx : x ∈ t
    · simp [hx]
    · by_cases hg : x = g
      · simp [hx, hg, pyGet_pyInsert]
      · simp [hx, hg, pyGet_pyInsert]

theorem mem_keys_pyErase_of_ne [DecidableEq α] (l : List (α × β)) (a x : α)
    (hx : x ∈ pyKeys l) (hne : x ≠ a) : x ∈ pyKeys (pyErase l a) := by
  induction l with
  | nil => simp [pyKeys] at hx
  | cons p t ih =>
    obtain ⟨k, v⟩ := p
    rw [pyKeys, List.map_cons, List.mem_cons] at hx
    rw [pyErase]
    by_cases hk : k = a
    · rw [if_pos hk]
      rcases hx with hx | hx
      · exact absurd (hx.trans hk) hne
      · exact ih hx
    · rw [if_neg hk, pyKeys, List.map_cons, List.mem_cons]
      rcases hx with hx | hx
      · exact Or.inl hx
      · exact Or.inr (ih hx)

theorem two_le_length_of_mem_ne [DecidableEq α] {l : List (α × β)} {c1 c2 : α}
    (h1 : c1 ∈ pyKeys l) (h2 : c2 ∈ pyKeys l) (hne : c1 ≠ c2) : 2 ≤ l.length := by
  cases l with
  | nil => simp [pyKeys] at h1
  | cons p t =>
    cases t with
    | nil =>
      rw [pyKeys] at h1 h2
      simp at h1 h2
      exact absurd (h1.trans h2.symm) hne
    | cons q t2 =>
      simp only [List.length_cons]
      omega

/-- Invariant of the HAC loop state: cluster keys are distinct and below the
counter, every mapping binding points into an existing cluster containing
the app, and every cluster member is mapped back to its cluster. -/
def ClInv (clusters : List (Nat × List Int)) (mapping : List (Int × Nat))
    (counter : Nat) : Prop :=
  (pyKeys clusters).Nodup ∧
  (∀ c ∈ pyKeys clusters, c < counter) ∧
  (∀ a c, pyGet mapping a = some c → ∃ m, pyGet clusters c = some m ∧ a ∈ m) ∧
  (∀ c m, pyGet clusters c = some m → ∀ a ∈ m, pyGet mapping a = some c)

theorem mergeStep_clusters_get (clusters : List (Nat × List Int))
    (mapping : List (Int × Nat)) (counter : Nat) (c1 c2 : Nat) (m1 m2 : List Int)
    (hc1 : pyGet clusters c1 = some m1) (hc2 : pyGet clusters c2 = some m2)
    (x : Nat) :
    pyGet (mergeStep clusters mapping counter c1 c2).1 x =
      if x = c2 then none else if x = c1 then none
      else if x = counter then some (m1 ++ m2) else pyGet clusters x := by
  show pyGet (pyErase (pyErase (pyInsert clusters counter
    (((pyGet clusters c1).getD []) ++ ((pyGet clusters c2).getD []))) c1) c2) x = _
  rw [hc1, hc2]
  simp only [Option.getD_some]
  rw [pyGet_pyErase, pyGet_pyErase, pyGet_pyInsert]

theorem mergeStep_mapping_get (clusters : List (Nat × List Int))
    (mapping : List (Int × Nat)) (counter : Nat) (c1 c2 : Nat) (m1 m2 : List Int)
    (hc1 : pyGet clusters c1 = some m1) (hc2 : pyGet clusters c2 = some m2)
    (a : Int) :
    pyGet (mergeStep clusters mapping counter c1 c2).2 a =
      if a ∈ m1 ++ m2 then some counter else pyGet mapping a := by
  show pyGet ((((pyGet clusters c1).getD []) ++ ((pyGet clusters c2).getD [])).foldl
    (fun d a => pyInsert d a counter) mapping) a = _
  rw [hc1, hc2]
  simp only [Option.getD_some]
  rw [pyGet_foldl_pyInsert_const_id]

theorem mergeStep_preserve (clusters : List (Nat × List Int))
    (mapping : List (Int × Nat)) (counter : Nat) (c1 c2 : Nat) (m1 m2 : List Int)
    (hinv : ClInv clusters mapping counter) (hne : c1 ≠ c2)
    (hc1 : pyGet clusters c1 = some m1) (hc2 : pyGet clusters c2 = some m2) :
    ClInv (mergeStep clusters mapping counter c1 c2).1
      (mergeStep clusters mapping counter c1 c2).2 (counter + 1) ∧
    (mergeStep clusters mapping counter c1 c2).1.length + 1 = clusters.length := by
  have hkeyc1 : c1 ∈ pyKeys clusters := pyGet_some_mem_keys _ _ _ hc1
  have hkeyc2 : c2 ∈ pyKeys clusters := pyGet_some_mem_keys _ _ _ hc2
  have hltc1 : c1 < counter := hinv.2.1 c1 hkeyc1
  have hltc2 : c2 < counter := hinv.2.1 c2 hkeyc2
  have hkc : counter ∉ pyKeys clusters := fun h => absurd (hinv.2.1 counter h)
    (lt_irrefl counter)
  have hCget := mergeStep_clusters_get clusters mapping counter c1 c2 m1 m2 hc1 hc2
  have hMget := mergeStep_mapping_get clusters mapping counter c1 c2 m1 m2 hc1 hc2
  have hinsert_keys : pyKeys (pyInsert clusters counter
      (((pyGet clusters c1).getD []) ++ ((pyGet clusters c2).getD []))) =
      pyKeys clusters ++ [counter] := pyKeys_pyInsert_not_mem _ _ _ hkc
  constructor
  · refine ⟨?_, ?_, ?_, ?_⟩
    · show (pyKeys (pyErase (pyErase (pyInsert clusters counter _) c1) c2)).Nodup
      exact pyKeys_nodup_pyErase _ _ (pyKeys_nodup_pyErase _ _
        (pyKeys_nodup_pyInsert _ _ _ hinv.1))
    · intro c hc
      have hc' : c ∈ pyKeys (pyInsert clusters counter
          (((pyGet clusters c1).getD []) ++ ((pyGet clusters c2).getD []))) :=
        mem_keys_pyErase _ _ _ (mem_keys_pyErase _ _ _ hc)
      rw [hinsert_keys, List.mem_append, List.mem_singleton] at hc'
      rcases hc' with hc' | hc'
      · have := hinv.2.1 c hc'
        omega
      · omega
    · intro a c hba
      rw [hMget] at hba
      by_cases hm : a ∈ m1 ++ m2
      · rw [if_pos hm] at hba
        obtain rfl : counter = c := Option.some_inj.mp hba
        refine ⟨m1 ++ m2, ?_, hm⟩
        rw [hCget]
        rw [if_neg (by omega), if_neg (by omega), if_pos rfl]
      · rw [if_neg hm] at hba
        obtain ⟨m, hgm, ham⟩ := hinv.2.2.1 a c hba
        have hcc1 : c ≠ c1 := by
          intro hcc
          rw [hcc, hc1] at hgm
          exact hm (List.mem_append.mpr (Or.inl (Option.some_inj.mp hgm ▸ ham)))
        have hcc2 : c ≠ c2 := by
          intro hcc
          rw [hcc, hc2] at hgm
          exact hm (List.mem_append.mpr (Or.inr (Option.some_inj.mp hgm ▸ ham)))
        have hcctr : c ≠ counter := by
          have := hinv.2.1 c (pyGet_some_mem_keys _ _ _ hgm)
          omega
        refine ⟨m, ?_, ham⟩
        rw [hCget, if_neg hcc2, if_neg hcc1, if_neg hcctr]
        exact hgm
    · intro c m' hgc a ham'
      rw [hCget] at hgc
      by_cases h2 : c = c2
      · rw [if_pos h2] at hgc
        simp at hgc
      · rw [if_neg h2] at hgc
        by_cases h1 : c = c1
        · rw [if_pos h1] at hgc
          simp at hgc
        · rw [if_neg h1] at hgc
          by_cases hc : c = counter
          · rw [if_pos hc] at hgc
            obtain rfl : m1 ++ m2 = m' := Option.some_inj.mp hgc
            rw [hMget, if_pos ham', hc]
          · rw [if_neg hc] at hgc
            have hold := hinv.2.2.2 c m' hgc a ham'
            rw [hMget]
            have hnm : a ∉ m1 ++ m2 := by
              intro hmem
              rcases List.mem_append.mp hmem with hmem | hmem
              · have := hinv.2.2.2 c1 m1 hc1 a hmem
                rw [hold] at this
                exact h1 (Option.some_inj.mp this)
              · have := hinv.2.2.2 c2 m2 hc2 a hmem
                rw [hold] at this
                exact h2 (Option.some_inj.mp this)
            rw [if_neg hnm]
            exact hold
  · have hNodupIns : (pyKeys (pyInsert clusters counter
        (((pyGet clusters c1).getD []) ++ ((pyGet clusters c2).getD [])))).Nodup :=
      pyKeys_nodup_pyInsert _ _ _ hinv.1
    have hc1mem : c1 ∈ pyKeys (pyInsert clusters counter
        (((pyGet clusters c1).getD []) ++ ((pyGet clusters c2).getD []))) := by
      rw [hinsert_keys, List.mem_append]
      exact Or.inl hkeyc1
    have hc2mem : c2 ∈ pyKeys (pyErase (pyInsert clusters counter
        (((pyGet clusters c1).getD []) ++ ((pyGet clusters c2).getD []))) c1) := by
      refine mem_keys_pyErase_of_ne _ _ _ ?_ (fun h => hne h.symm)
      rw [hinsert_keys, List.mem_append]
      exact Or.inl hkeyc2
    have hlen1 : (pyErase (pyInsert clusters counter
        (((pyGet clusters c1).getD []) ++ ((pyGet clusters c2).getD []))) c1).length + 1 =
        (pyInsert clusters counter
          (((pyGet clusters c1).getD []) ++ ((pyGet clusters c2).getD []))).length :=
      length_pyErase_of_mem _ _ hNodupIns hc1mem
    have hlen2 : (pyErase (pyErase (pyInsert clusters counter
        (((pyGet clusters c1).getD []) ++ ((pyGet clusters c2).getD []))) c1) c2).length + 1 =
        (pyErase (pyInsert clusters counter
          (((pyGet clusters c1).getD []) ++ ((pyGet clusters c2).getD []))) c1).length :=
      length_pyErase_of_mem _ _ (pyKeys_nodup_pyErase _ _ hNodupIns) hc2mem
    have hlen3 : (pyInsert clusters counter
        (((pyGet clusters c1).getD []) ++ ((pyGet clusters c2).getD []))).length =
        clusters.length + 1 := by
      rw [pyInsert_of_not_mem _ _ _ hkc, List.length_append]
      rfl
    show (pyErase (pyErase (pyInsert clusters counter _) c1) c2).length + 1 =
      clusters.length
    omega

/-- With fuel at least the cluster count, the bounded HAC loop reaches the
fixpoint: the invariant still holds and no merge candidate remains, exactly
the exit condition of the unbounded Python while loop. -/
theorem hac_fixpoint (matrix : List ((Int × Int) × ℚ)) :
    ∀ (fuel : Nat) (clusters : List (Nat × List Int)) (mapping : List (Int × Nat))
    (counter : Nat), ClInv clusters mapping counter → clusters.length ≤ fuel + 1 →
    ∃ counter', ClInv (hacLoop matrix fuel clusters mapping counter).1
      (hacLoop matrix fuel clusters mapping counter).2 counter' ∧
      findBest matrix (hacLoop matrix fuel clusters mapping counter).2 = none := by
  intro fuel
  induction fuel with
  | zero =>
    intro clusters mapping counter hinv hlen
    rw [hacLoop]
    refine ⟨counter, hinv, ?_⟩
    cases hfb : findBest matrix mapping with
    | none => rfl
    | some r =>
      exfalso
      obtain ⟨e, _, c1, c2, _, hg1, hg2, hne, rfl⟩ := findBest_some matrix mapping r hfb
      obtain ⟨mm1, hmm1, _⟩ := hinv.2.2.1 e.1.1 c1 hg1
      obtain ⟨mm2, hmm2, _⟩ := hinv.2.2.1 e.1.2 c2 hg2
      have h1 := pyGet_some_mem_keys clusters c1 mm1 hmm1
      have h2 := pyGet_some_mem_keys clusters c2 mm2 hmm2
      have := two_le_length_of_mem_ne h1 h2 hne
      omega
  | succ fuel ih =>
    intro clusters mapping counter hinv hlen
    rw [hacLoop]
    cases hfb : findBest matrix mapping with
    | none => exact ⟨counter, hinv, hfb⟩
    | some r =>
      obtain ⟨e, _, c1, c2, _, hg1, hg2, hne, rfl⟩ := findBest_some matrix mapping r hfb
      obtain ⟨mm1, hmm1, _⟩ := hinv.2.2.1 e.1.1 c1 hg1
      obtain ⟨mm2, hmm2, _⟩ := hinv.2.2.1 e.1.2 c2 hg2
      have hpres := mergeStep_preserve clusters mapping counter c1 c2 mm1 mm2 hinv hne
        hmm1 hmm2
      exact ih (mergeStep clusters mapping counter c1 c2).1
        (mergeStep clusters mapping counter c1 c2).2 (counter + 1) hpres.1 (by omega)

/-! ## HAC: the initial singleton state -/

theorem pyKeys_append (l1 l2 : List (α × β)) :
    pyKeys (l1 ++ l2) = pyKeys l1 ++ pyKeys l2 := by
  simp [pyKeys]

theorem initClusters_get_aux : ∀ (ids : List Int) (k c : Nat),
    pyGet ((ids.enumFrom k).map (fun p => (p.1, [p.2]))) c =
      if k ≤ c then (ids[c - k]?).map (fun a => ([a] : List Int)) else none := by
  intro ids
  induction ids with
  | nil =>
    intro k c
    simp [List.enumFrom, pyGet]
  | cons a t ih =>
    intro k c
    rw [show List.enumFrom k (a :: t) = (k, a) :: List.enumFrom (k + 1) t from rfl]
    rw [List.map_cons, pyGet]
    by_cases hck : c = k
    · subst hck
      rw [if_pos rfl, if_pos (le_refl c)]
      simp
    · rw [if_neg hck, ih (k + 1) c]
      by_cases hkc : k ≤ c
      · have hk1c : k + 1 ≤ c := by omega
        rw [if_pos hk1c, if_pos hkc]
        have hsub : c - k = (c - (k + 1)) + 1 := by omega
        rw [hsub]
        simp
      · have hk1c : ¬ (k + 1 ≤ c) := by omega
        rw [if_neg hk1c, if_neg hkc]

theorem initClusters_get (ids : List Int) (c : Nat) :
    pyGet (initClusters ids) c = (ids[c]?).map (fun a => ([a] : List Int)) := by
  have h := initClusters_get_aux ids 0 c
  rw [show initClusters ids = (ids.enumFrom 0).map (fun p => (p.1, [p.2])) from rfl, h,
    if_pos (Nat.zero_le c), Nat.sub_zero]

theorem initMapping_swap_get_some : ∀ (ids : List Int) (k : Nat) (a : Int) (i : Nat),
    pyGet ((ids.enumFrom k).map (fun p => (p.2, p.1))) a = some i →
    k ≤ i ∧ ids[i - k]? = some a := by
  intro ids
  induction ids with
  | nil => intro k a i h; simp [List.enumFrom, pyGet] at h
  | cons b t ih =>
    intro k a i h
    rw [show List.enumFrom k (b :: t) = (k, b) :: List.enumFrom (k + 1) t from rfl,
      List.map_cons, pyGet] at h
    by_cases hab : a = b
    · rw [if_pos hab] at h
      obtain rfl : k = i := Option.some_inj.mp h
      refine ⟨le_refl k, ?_⟩
      rw [Nat.sub_self]
      simp [hab]
    · rw [if_neg hab] at h
      obtain ⟨hki, hget⟩ := ih (k + 1) a i h
      refine ⟨by omega, ?_⟩
      have hsub : i - k = (i - (k + 1)) + 1 := by omega
      rw [hsub]
      simpa using hget

theorem initMapping_swap_get_of_nodup : ∀ (ids : List Int) (k : Nat) (i : Nat) (a : Int),
    ids.Nodup → ids[i]? = some a →
    pyGet ((ids.enumFrom k).map (fun p => (p.2, p.1))) a = some (k + i) := by
  intro ids
  induction ids with
  | nil => intro k i a _ h; simp at h
  | cons b t ih =>
    intro k i a hnd h
    rw [show List.enumFrom k (b :: t) = (k, b) :: List.enumFrom (k + 1) t from rfl,
      List.map_cons, pyGet]
    cases i with
    | zero =>
      have hb : b = a := by simpa using h
      rw [if_pos hb.symm, Nat.add_zero]
    | succ n =>
      have hget : t[n]? = some a := by simpa using h
      have hmem : a ∈ t := by
        have := List.getElem?_eq_some_iff.mp hget
        obtain ⟨hn, hval⟩ := this
        exact hval ▸ List.getElem_mem hn
      have hab : a ≠ b := fun hc => (List.nodup_cons.mp hnd).1 (hc ▸ hmem)
      rw [if_neg hab]
      have := ih (k + 1) n a (List.nodup_cons.mp hnd).2 hget
      rw [this]
      congr 1
      omega

theorem initMapping_eq_aux : ∀ (ids : List Int) (k : Nat) (acc : List (Int × Nat)),
    (∀ a ∈ ids, a ∉ pyKeys acc) → ids.Nodup →
    ((ids.enumFrom k).foldl (fun d p => pyInsert d p.2 p.1) acc) =
      acc ++ (ids.enumFrom k).map (fun p => (p.2, p.1)) := by
  intro ids
  induction ids with
  | nil => intro k acc _ _; simp [List.enumFrom]
  | cons b t ih =>
    intro k acc hfresh hnd
    rw [show List.enumFrom k (b :: t) = (k, b) :: List.enumFrom (k + 1) t from rfl]
    simp only [List.foldl_cons, List.map_cons]
    have hfrb : b ∉ pyKeys acc := hfresh b (List.mem_cons_self _ _)
    have hstep : pyInsert acc b k = acc ++ [(b, k)] := pyInsert_of_not_mem _ _ _ hfrb
    rw [hstep]
    rw [ih (k + 1) (acc ++ [(b, k)]) ?_ (List.nodup_cons.mp hnd).2]
    · rw [List.append_assoc]
      rfl
    · intro a ha
      rw [pyKeys_append, List.mem_append]
      push_neg
      constructor
      · exact hfresh a (List.mem_cons_of_mem _ ha)
      · show a ∉ pyKeys [(b, k)]
        rw [pyKeys]
        simp only [List.map_cons, List.map_nil, List.mem_singleton]
        exact fun hc => (List.nodup_cons.mp hnd).1 (hc ▸ ha)

theorem clInv_init (ids : List Int) (hnd : ids.Nodup) :
    ClInv (initClusters ids) (initMapping ids) ids.length := by
  have hmap : initMapping ids = (ids.enumFrom 0).map (fun p => (p.2, p.1)) := by
    have h := initMapping_eq_aux ids 0 [] (by intro a _; simp [pyKeys]) hnd
    rw [initMapping, show ids.enum = ids.enumFrom 0 from rfl]
    simpa using h
  have hkeys : pyKeys (initClusters ids) = List.range ids.length := by
    rw [initClusters, pyKeys, List.map_map]
    rw [show (Prod.fst ∘ fun p : Nat × Int => (p.1, [p.2])) = Prod.fst from rfl]
    exact List.enum_map_fst ids
  refine ⟨?_, ?_, ?_, ?_⟩
  · rw [hkeys]
    exact List.nodup_range ids.length
  · intro c hc
    rw [hkeys] at hc
    exact List.mem_range.mp hc
  · intro a c hba
    rw [hmap] at hba
    obtain ⟨h0c, hget⟩ := initMapping_swap_get_some ids 0 a c hba
    rw [Nat.sub_zero] at hget
    refine ⟨[a], ?_, by simp⟩
    rw [initClusters_get ids c, hget]
    rfl
  · intro c m hgc a ham
    rw [initClusters_get ids c] at hgc
    cases hia : ids[c]? with
    | none => rw [hia] at hgc; simp at hgc
    | some b =>
      rw [hia] at hgc
      simp only [Option.map_some'] at hgc
      have hm : m = [b] := (Option.some_inj.mp hgc).symm
      have hab : a = b := by
        rw [hm] at ham
        simpa using ham
      rw [hmap, hab]
      have h := initMapping_swap_get_of_nodup ids 0 c b hnd hia
      simpa using h

/-! ## Claims C5 and C7 -/

/-- C5 (amended): provided the applications' ids are pairwise distinct, when
cluster_applications returns, no two applications placed in different
clusters have similarity strictly above the threshold under the computed
pairwise matrix; and (unconditionally) a pair is only ever selected as a
merge candidate when its matrix similarity strictly exceeds the threshold.
With duplicate application ids the closure fails (see the counterexample):
the matrix entry keyed by a duplicated id is overwritten while a stale
singleton cluster of that id survives. -/
theorem cluster_closure (applications : List Application)
    (hnd : (applications.map (fun a => a.app_id)).Nodup) :
    (∀ result matrix, cluster_applications applications = some result →
      buildSimilarityMatrix applications = some matrix →
      ∀ e ∈ matrix, ∀ p ∈ result, ∀ q ∈ result,
        p.1 ≠ q.1 → e.1.1 ∈ p.2 → e.1.2 ∈ q.2 → e.2 ≤ SIMILARITY_THRESHOLD) ∧
    (∀ matrix mapping (r : Nat × Nat × Int × Int), findBest matrix mapping = some r →
      ∃ e ∈ matrix, e.2 > SIMILARITY_THRESHOLD ∧ r.2.2.1 = e.1.1 ∧ r.2.2.2 = e.1.2) := by
  constructor
  · intro result matrix hres hmat e he p hp q hq hpq he1 he2
    rw [cluster_applications] at hres
    by_cases hemp : applications.isEmpty = true
    · rw [if_pos hemp] at hres
      obtain rfl : ([] : List (Nat × List Int)) = result := Option.some_inj.mp hres
      simp at hp
    · rw [if_neg hemp, hmat] at hres
      simp only [Option.map_some'] at hres
      have hres' := Option.some_inj.mp hres
      set ids := applications.map (fun a => a.app_id) with hids
      have hlen_ids : ids.length = applications.length := by
        rw [hids, List.length_map]
      have hinit := clInv_init ids hnd
      rw [hlen_ids] at hinit
      have hlen0 : (initClusters ids).length ≤ applications.length + 1 := by
        rw [initClusters, List.length_map, List.enum_length, hlen_ids]
        omega
      obtain ⟨ctr', hinv', hfb⟩ := hac_fixpoint matrix applications.length
        (initClusters ids) (initMapping ids) applications.length hinit hlen0
      rw [hres'] at hinv'
      have hgp : pyGet result p.1 = some p.2 :=
        pyGet_of_mem_nodup result p.1 p.2 hinv'.1 hp
      have hgq : pyGet result q.1 = some q.2 :=
        pyGet_of_mem_nodup result q.1 q.2 hinv'.1 hq
      have hb1 := hinv'.2.2.2 p.1 p.2 hgp e.1.1 he1
      have hb2 := hinv'.2.2.2 q.1 q.2 hgq e.1.2 he2
      by_contra hgt
      push_neg at hgt
      have hnq := findBest_none matrix _ hfb e he
      exact hnq ⟨hgt, ⟨p.1, q.1, hb1, hb2, hpq⟩⟩
  · intro matrix mapping r hr
    obtain ⟨e, he, c1, c2, h30, _, _, _, rfl⟩ := findBest_some matrix mapping r hr
    exact ⟨e, he, h30, rfl, rfl⟩

/-- Three applications, the first two sharing app id 1: the fixture of the
C5 counterexample. -/
def c5Apps : List Application :=
  [{ app_id := 1, vm_id := 0, name := "A1", fuzzy_hash := "a" },
   { app_id := 1, vm_id := 0, name := "A1b", fuzzy_hash := "b" },
   { app_id := 2, vm_id := 0, name := "A2", fuzzy_hash := "b" }]

theorem c5Apps_matrix :
    buildSimilarityMatrix c5Apps = some [((1, 1), (0 : ℚ)), ((1, 2), (100 : ℚ))] := by
  have hs1 : calculate_similarity "a" "b" = some 0 := by
    rw [calculate_similarity_of_ne "a" "b" (by decide) (by decide)]
    have hc : ((("a" : String).toList.zip ("b" : String).toList).countP
        (fun p => decide (p.1 ≠ p.2)) : Nat) = 1 := by decide
    have hl : ("a" : String).length = 1 := by decide
    rw [hc, hl]
    norm_num
  have hs2 : calculate_similarity "b" "b" = some 100 := by
    rw [calculate_similarity]
    simp
  rw [buildSimilarityMatrix]
  rw [show appPairs c5Apps =
    [({ app_id := 1, vm_id := 0, name := "A1", fuzzy_hash := "a" },
      { app_id := 1, vm_id := 0, name := "A1b", fuzzy_hash := "b" }),
     ({ app_id := 1, vm_id := 0, name := "A1", fuzzy_hash := "a" },
      { app_id := 2, vm_id := 0, name := "A2", fuzzy_hash := "b" }),
     ({ app_id := 1, vm_id := 0, name := "A1b", fuzzy_hash := "b" },
      { app_id := 2, vm_id := 0, name := "A2", fuzzy_hash := "b" })] from by decide]
  simp [List.foldlM, hs1, hs2, pyInsert]

theorem c5Apps_clusters :
    cluster_applications c5Apps = some [(0, [1]), (3, [1, 2])] := by
  rw [cluster_applications, if_neg (by decide : ¬ (c5Apps.isEmpty = true)), c5Apps_matrix]
  simp only [Option.map_some']
  rw [show c5Apps.map (fun a => a.app_id) = [1, 1, 2] from by decide]
  rw [show initClusters [1, 1, 2] = [(0, [1]), (1, [1]), (2, [2])] from by decide]
  rw [show initMapping [1, 1, 2] = [(1, 1), (2, 2)] from by decide]
  rw [show c5Apps.length = 3 from by decide]
  have hq1 : ¬ ((0 : ℚ) > SIMILARITY_THRESHOLD) := by norm_num [SIMILARITY_THRESHOLD]
  have hq2 : (100 : ℚ) > SIMILARITY_THRESHOLD := by norm_num [SIMILARITY_THRESHOLD]
  have hq3 : (100 : ℚ) > -1 := by norm_num
  simp [hacLoop, findBest, findBestStep, mergeStep, pyGet, pyInsert, pyErase,
    hq1, hq2, hq3]

/-- C5 counterexample: with duplicate app ids ([1, 1, 2]), the clustering
returns clusters {0: [1], 3: [1, 2]}; apps 1 (in cluster 0) and 2 (in
cluster 3) lie in different clusters although the computed matrix holds
similarity 100 > 30 for the pair (1, 2) — the closure property of the claim
fails as stated for arbitrary application lists. -/
theorem cluster_closure_cex :
    cluster_applications c5Apps = some [(0, [1]), (3, [1, 2])] ∧
    buildSimilarityMatrix c5Apps = some [((1, 1), (0 : ℚ)), ((1, 2), (100 : ℚ))] ∧
    ((1, 2), (100 : ℚ)) ∈ [((1, 1), (0 : ℚ)), ((1, 2), (100 : ℚ))] ∧
    ((0 : Nat), [(1 : Int)]) ∈ [((0 : Nat), [(1 : Int)]), (3, [1, 2])] ∧
    ((3 : Nat), [(1 : Int), 2]) ∈ [((0 : Nat), [(1 : Int)]), (3, [1, 2])] ∧
    (0 : Nat) ≠ 3 ∧ (1 : Int) ∈ [(1 : Int)] ∧ (2 : Int) ∈ [(1 : Int), 2] ∧
    ¬ ((100 : ℚ) ≤ SIMILARITY_THRESHOLD) := by
  refine ⟨c5Apps_clusters, c5Apps_matrix, ?_, ?_, ?_, ?_, ?_, ?_, ?_⟩
  · exact List.mem_cons_of_mem _ (List.mem_cons_self _ _)
  · exact List.mem_cons_self _ _
  · exact List.mem_cons_of_mem _ (List.mem_cons_self _ _)
  · decide
  · decide
  · decide
  · norm_num [SIMILARITY_THRESHOLD]

/-- Three applications with distinct ids for the C5 witness. -/
def c5GoodApps : List Application :=
  [{ app_id := 1, vm_id := 0, name := "B1", fuzzy_hash := "a" },
   { app_id := 2, vm_id := 0, name := "B2", fuzzy_hash := "a" },
   { app_id := 3, vm_id := 0, name := "B3", fuzzy_hash := "b" }]

theorem c5GoodApps_matrix :
    buildSimilarityMatrix c5GoodApps =
      some [((1, 2), (100 : ℚ)), ((1, 3), (0 : ℚ)), ((2, 3), (0 : ℚ))] := by
  have hs1 : calculate_similarity "a" "a" = some 100 := by
    rw [calculate_similarity]
    simp
  have hs2 : calculate_similarity "a" "b" = some 0 := by
    rw [calculate_similarity_of_ne "a" "b" (by decide) (by decide)]
    have hc : ((("a" : String).toList.zip ("b" : String).toList).countP
        (fun p => decide (p.1 ≠ p.2)) : Nat) = 1 := by decide
    have hl : ("a" : String).length = 1 := by decide
    rw [hc, hl]
    norm_num
  rw [buildSimilarityMatrix]
  rw [show appPairs c5GoodApps =
    [({ app_id := 1, vm_id := 0, name := "B1", fuzzy_hash := "a" },
      { app_id := 2, vm_id := 0, name := "B2", fuzzy_hash := "a" }),
     ({ app_id := 1, vm_id := 0, name := "B1", fuzzy_hash := "a" },
      { app_id := 3, vm_id := 0, name := "B3", fuzzy_hash := "b" }),
     ({ app_id := 2, vm_id := 0, name := "B2", fuzzy_hash := "a" },
      { app_id := 3, vm_id := 0, name := "B3", fuzzy_hash := "b" })] from by decide]
  simp [List.foldlM, hs1, hs2, pyInsert]

theorem c5GoodApps_clusters :
    cluster_applications c5GoodApps = some [(2, [3]), (3, [1, 2])] := by
  rw [cluster_applications, if_neg (by decide : ¬ (c5GoodApps.isEmpty = true)),
    c5GoodApps_matrix]
  simp only [Option.map_some']
  rw [show c5GoodApps.map (fun a => a.app_id) = [1, 2, 3] from by decide]
  rw [show initClusters [1, 2, 3] = [(0, [1]), (1, [2]), (2, [3])] from by decide]
  rw [show initMapping [1, 2, 3] = [(1, 0), (2, 1), (3, 2)] from by decide]
  rw [show c5GoodApps.length = 3 from by decide]
  have hq1 : ¬ ((0 : ℚ) > SIMILARITY_THRESHOLD) := by norm_num [SIMILARITY_THRESHOLD]
  have hq2 : (100 : ℚ) > SIMILARITY_THRESHOLD := by norm_num [SIMILARITY_THRESHOLD]
  have hq3 : (100 : ℚ) > -1 := by norm_num
  simp [hacLoop, findBest, findBestStep, mergeStep, pyGet, pyInsert, pyErase,
    hq1, hq2, hq3]

/-- C5 witness: on a distinct-id fixture, the amended closure theorem
applies to the cross-cluster pair (1, 3) of the computed matrix. -/
theorem cluster_closure_witness :
    cluster_applications c5GoodApps = some [(2, [3]), (3, [1, 2])] ∧
    ((0 : ℚ) ≤ SIMILARITY_THRESHOLD) :=
  ⟨c5GoodApps_clusters,
   (cluster_closure c5GoodApps (by decide)).1 [(2, [3]), (3, [1, 2])]
     [((1, 2), (100 : ℚ)), ((1, 3), (0 : ℚ)), ((2, 3), (0 : ℚ))]
     c5GoodApps_clusters c5GoodApps_matrix ((1, 3), (0 : ℚ))
     (List.mem_cons_of_mem _ (List.mem_cons_self _ _))
     (3, [1, 2]) (List.mem_cons_of_mem _ (List.mem_cons_self _ _))
     (2, [3]) (List.mem_cons_self _ _)
     (by decide) (by decide) (by decide)⟩

/-- C7: cluster_applications is deterministic — its output is a function of
the applications' id sequence and the computed similarity matrix alone, so
two calls on inputs agreeing on those (in particular two calls on the same
input, the matrix being computed by a fixed deterministic iteration order)
return identical cluster membership. -/
theorem cluster_deterministic (apps1 apps2 : List Application)
    (hids : apps1.map (fun a => a.app_id) = apps2.map (fun a => a.app_id))
    (hmat : buildSimilarityMatrix apps1 = buildSimilarityMatrix apps2) :
    cluster_applications apps1 = cluster_applications apps2 := by
  have hlen : apps1.length = apps2.length := by
    have h := congrArg List.length hids
    simpa using h
  have hemp : apps1.isEmpty = apps2.isEmpty := by
    cases apps1 with
    | nil =>
      cases apps2 with
      | nil => rfl
      | cons b t => simp at hlen
    | cons a t =>
      cases apps2 with
      | nil => simp at hlen
      | cons b t2 => rfl
  rw [cluster_applications, cluster_applications, hemp, hids, hmat, hlen]

/-- C7 witness: two calls on the same singleton list coincide. -/
theorem cluster_deterministic_witness :
    cluster_applications [{ app_id := 7, vm_id := 0, name := "w", fuzzy_hash := "aa" }] =
      cluster_applications [{ app_id := 7, vm_id := 0, name := "w", fuzzy_hash := "aa" }] :=
  cluster_deterministic
    [{ app_id := 7, vm_id := 0, name := "w", fuzzy_hash := "aa" }]
    [{ app_id := 7, vm_id := 0, name := "w", fuzzy_hash := "aa" }] rfl rfl
